import Mathlib

/-!
# pgsentinel: active session history

A shallow embedding of `src/pgsentinel.c` and a verification development over it.

Conventions of the embedding.

* A `char` is a natural number; a C string argument is the list of bytes found at the
  pointer, the terminating NUL being implicit: `strlen` stops at the first zero byte and
  a read of the terminator itself yields `0`.
* The C structures `ashEntry` and `procEntry` hold pointers into separate shared buffers,
  one fixed-size region per slot.  Here every string field of a slot is that region
  itself, a list of bytes whose length is the size of the region.
* `int` values that the code keeps non-negative (lengths, the cursor `inserted`, the
  capacity `ash_max_entries`) are natural numbers; pids, ports, timestamps and the
  statement location and length delivered by the parser are integers.
* `ereport(ERROR, ...)` leaves the function by a long jump: the outcome `raised` carries
  the shared state as it is at that moment.  An access outside an allocated array, a
  NULL dereference or a division by zero is the outcome `undefined`.
-/

namespace PgSentinel

/-! ## Host quantities -/

/-- Quantities fixed by the host server before the library is loaded: the compile-time
constant `NAMEDATALEN`, the postmaster settings `pgstat_track_activity_query_size`,
`MaxBackends`, `NUM_AUXILIARY_PROCS`, `max_prepared_xacts`, and the host hash function
`hash_any_extended` (applied to the `len` bytes it is given and a seed). -/
structure Env where
  NAMEDATALEN : Nat
  pgstat_track_activity_query_size : Nat
  MaxBackends : Nat
  NUM_AUXILIARY_PROCS : Nat
  max_prepared_xacts : Nat
  hash_any_extended : List Nat → Nat → Nat

/-! ## Errors and outcomes -/

/-- SQLSTATE classes used by the library. -/
inductive SqlState where
  | ERRCODE_INTERNAL_ERROR
  | ERRCODE_OBJECT_NOT_IN_PREREQUISITE_STATE
  | ERRCODE_FEATURE_NOT_SUPPORTED
deriving DecidableEq, Repr

/-- The messages of the library, with their arguments. -/
inductive ErrMsg where
  | backend_with_pid_not_found (pid : Int)
  | must_be_loaded_via_shared_preload_libraries
  | set_valued_function_called_in_context_that_cannot_accept_a_set
  | materialize_mode_required
  | return_type_must_be_a_row_type
deriving DecidableEq, Repr

/-- What `ereport(ERROR, (errcode(..), errmsg(..)))` raises. -/
structure ErrorData where
  errcode : SqlState
  errmsg : ErrMsg
deriving DecidableEq, Repr

/-- Result of a function that computes a value and changes nothing. -/
inductive Result (α : Type) where
  | ok (a : α)
  | error (e : ErrorData)
  | undefined
deriving DecidableEq, Repr

/-! ## Bytes, strings and buffers -/

/-- C `strlen`: the number of bytes before the first NUL. -/
def strlen (s : List Nat) : Nat :=
  (s.takeWhile (fun b => b != 0)).length

/-- C `memcpy(dst, src, n)` on a destination region `dst`: the first `n` bytes are
replaced by the first `n` bytes of `src`. -/
def memcpy (dst src : List Nat) (n : Nat) : List Nat :=
  src.take n ++ dst.drop n

/-- The C string held by a buffer: its bytes up to the first NUL
(what `CStringGetTextDatum` converts). -/
def cstring (buf : List Nat) : List Nat :=
  buf.takeWhile (fun b => b != 0)

/-- Modelled from the spec: the host lexer predicate `scanner_isspace` is not part of this
repository; the lexer whitespace characters are space, tab, newline, carriage return and
form feed. -/
def scanner_isspace (ch : Nat) : Bool :=
  ch == 32 || ch == 9 || ch == 10 || ch == 13 || ch == 12

/-! ## Shared data -/

/-- One slot of the history ring (`struct ashEntry`). -/
structure ashEntry where
  pid : Int
  queryid : Nat
  ash_time : Int
  datid : Nat
  usesysid : Nat
  client_port : Int
  usename : List Nat
  datname : List Nat
  application_name : List Nat
  wait_event_type : List Nat
  wait_event : List Nat
  state : List Nat
  client_hostname : List Nat
  top_level_query : List Nat
  query : List Nat
  backend_type : List Nat
  client_addr : List Nat
  backend_xmin : Nat
  backend_xid : Nat
  backend_start : Int
  xact_start : Int
  query_start : Int
  state_change : Int
deriving DecidableEq, Repr

/-- One slot of the per-backend query table (`struct procEntry`). -/
structure procEntry where
  queryid : Nat
  query : List Nat
  qlen : Nat
deriving DecidableEq, Repr

/-- The part of the host structure `PGPROC` that the library reads. -/
structure PGPROC where
  pid : Int
deriving DecidableEq, Repr

/-- The module-level and shared variables of the library, with the host process array.
`AshEntryArray = none` is the NULL pointer of a library that was not preloaded. -/
structure State where
  ash_max_entries : Nat
  AshEntryArray : Option (List ashEntry)
  inserted : Nat
  allProcs : List PGPROC
  ProcEntryArray : List procEntry
deriving DecidableEq, Repr

/-- Outcome of a function that updates the shared state. -/
inductive Outcome where
  | returned (st : State)
  | raised (st : State) (e : ErrorData)
  | undefined
deriving DecidableEq, Repr

/-- The arguments of `ash_prepare_store` and `ash_entry_store` other than the capture
time and the slot index: one row of the activity query, the missing values already
replaced by the empty string. -/
structure ActivityRecord where
  pid : Int
  usename : List Nat
  client_port : Int
  datid : Nat
  datname : List Nat
  application_name : List Nat
  client_addr : List Nat
  backend_xmin : Nat
  backend_start : Int
  xact_start : Int
  query_start : Int
  state_change : Int
  wait_event_type : List Nat
  wait_event : List Nat
  state : List Nat
  client_hostname : List Nat
  query : List Nat
  backend_type : List Nat
  usesysid : Nat
  backend_xid : Nat
deriving DecidableEq, Repr

/-! ## search_procentry -/

/-- The loop of `search_procentry` from index `i`, with `fuel = allProcCount - i`
iterations left. -/
def search_procentry_loop (st : State) (pid : Int) : Nat → Nat → Result procEntry
  | 0, _ => .error ⟨.ERRCODE_INTERNAL_ERROR, .backend_with_pid_not_found pid⟩
  | fuel + 1, i =>
    match st.allProcs[i]? with
    | none => .undefined
    | some proc =>
      if proc.pid ≠ 0 ∧ proc.pid = pid then
        match st.ProcEntryArray[i]? with
        | none => .undefined
        | some entry => .ok entry
      else search_procentry_loop st pid fuel (i + 1)

/-- The function `search_procentry(pid)`; `ProcGlobal->allProcCount` is the length of
`allProcs`. -/
def search_procentry (st : State) (pid : Int) : Result procEntry :=
  search_procentry_loop st pid st.allProcs.length 0

/-! ## ash_hash64_string, get_max_procs_count -/

/-- The function `ash_hash64_string(str, len)`: the host hash of the first `len` bytes
with seed `0`. -/
def ash_hash64_string (env : Env) (str : List Nat) (len : Nat) : Nat :=
  env.hash_any_extended (str.take len) 0

/-- The function `get_max_procs_count()`. -/
def get_max_procs_count (env : Env) : Nat :=
  env.MaxBackends + env.NUM_AUXILIARY_PROCS + env.max_prepared_xacts

/-! ## ash_post_parse_analyze -/

/-- The first trimming loop of `ash_post_parse_analyze`:
`while (query_len > 0 && scanner_isspace(querytext[0])) querytext++, query_len--;`
on the pair `(querytext, query_len)`. -/
def skip_leading_space : List Nat → Nat → List Nat × Nat
  | querytext, 0 => (querytext, 0)
  | querytext, query_len + 1 =>
    if scanner_isspace (querytext.getD 0 0) then
      skip_leading_space (querytext.drop 1) query_len
    else (querytext, query_len + 1)

/-- The second trimming loop of `ash_post_parse_analyze`:
`while (query_len > 0 && scanner_isspace(querytext[query_len - 1])) query_len--;`. -/
def skip_trailing_space (querytext : List Nat) : Nat → Nat
  | 0 => 0
  | query_len + 1 =>
    if scanner_isspace (querytext.getD query_len 0) then
      skip_trailing_space querytext query_len
    else query_len + 1

/-- Lines 219-240 of `ash_post_parse_analyze`: the pair `(querytext, query_len)` that
delimits the statement inside the source text. -/
def statement_bounds (p_sourcetext : List Nat) (stmt_location stmt_len : Int) :
    List Nat × Nat :=
  if 0 ≤ stmt_location then
    let querytext := p_sourcetext.drop stmt_location.toNat
    if stmt_len ≤ 0 then (querytext, strlen querytext)
    else (querytext, stmt_len.toNat)
  else (p_sourcetext, strlen p_sourcetext)

/-- Lines 246-249 of `ash_post_parse_analyze`: both trimming loops, giving the final
`(querytext, query_len)`. -/
def trimmed_bounds (b : List Nat × Nat) : List Nat × Nat :=
  let b1 := skip_leading_space b.1 b.2
  (b1.1, skip_trailing_space b1.1 b1.2)

/-- Lines 251-266 of `ash_post_parse_analyze`: what is stored in the slot `entry`, given
the final `(querytext, query_len)` and the identity assigned by the parser. -/
def store_statement (env : Env) (entry : procEntry) (querytext : List Nat)
    (query_len : Nat) (queryId : Nat) : procEntry :=
  let minlen := min query_len (env.pgstat_track_activity_query_size - 1)
  { query := memcpy entry.query querytext minlen,
    qlen := minlen,
    queryid := if queryId = 0 then ash_hash64_string env querytext query_len else queryId }

/-- The hook `ash_post_parse_analyze(pstate, query)`, run by the backend whose process
slot is `MyProc` (`none` when the pointer is NULL), for the source text
`pstate->p_sourcetext` and the fields `stmt_location`, `stmt_len`, `queryId` of `query`.
A previously installed hook is outside the library. -/
def ash_post_parse_analyze (env : Env) (st : State) (MyProc : Option Nat)
    (p_sourcetext : List Nat) (stmt_location stmt_len : Int) (queryId : Nat) : Outcome :=
  match MyProc with
  | none => .returned st
  | some i =>
    match st.ProcEntryArray[i]? with
    | none => .undefined
    | some entry =>
      let b := trimmed_bounds (statement_bounds p_sourcetext stmt_location stmt_len)
      .returned { st with
        ProcEntryArray := st.ProcEntryArray.set i (store_statement env entry b.1 b.2 queryId) }

/-! ## ash_shmem_startup -/

/-- A ring slot after `MemSet(.., 0, ..)` of the entry array and of every string buffer. -/
def zero_ashEntry (env : Env) : ashEntry :=
  { pid := 0, queryid := 0, ash_time := 0, datid := 0, usesysid := 0, client_port := 0,
    usename := List.replicate env.NAMEDATALEN 0,
    datname := List.replicate env.NAMEDATALEN 0,
    application_name := List.replicate env.NAMEDATALEN 0,
    wait_event_type := List.replicate env.NAMEDATALEN 0,
    wait_event := List.replicate env.NAMEDATALEN 0,
    state := List.replicate env.NAMEDATALEN 0,
    client_hostname := List.replicate env.NAMEDATALEN 0,
    top_level_query := List.replicate env.pgstat_track_activity_query_size 0,
    query := List.replicate env.pgstat_track_activity_query_size 0,
    backend_type := List.replicate env.NAMEDATALEN 0,
    client_addr := List.replicate env.NAMEDATALEN 0,
    backend_xmin := 0, backend_xid := 0, backend_start := 0, xact_start := 0,
    query_start := 0, state_change := 0 }

/-- A query-table slot after `MemSet(.., 0, ..)`. -/
def zero_procEntry (env : Env) : procEntry :=
  { queryid := 0, query := List.replicate env.pgstat_track_activity_query_size 0, qlen := 0 }

/-- The hook `ash_shmem_startup()` in the postmaster (nothing found yet): every array is
allocated for the value `ash_max_entries` has at that moment and zeroed, the buffer
pointers are laid out one region per slot, and the static cursor has its initial value. -/
def ash_shmem_startup (env : Env) (ash_max_entries : Nat) (allProcs : List PGPROC) : State :=
  { ash_max_entries := ash_max_entries,
    AshEntryArray := some (List.replicate ash_max_entries (zero_ashEntry env)),
    inserted := 0,
    allProcs := allProcs,
    ProcEntryArray := List.replicate (get_max_procs_count env) (zero_procEntry env) }

/-! ## ash_entry_store, ash_prepare_store -/

/-- Lines 612-631 of `ash_entry_store`: the slot after the ten string copies and the ten
scalar assignments that precede the search of the query table. -/
def store_activity (env : Env) (e : ashEntry) (r : ActivityRecord) : ashEntry :=
  let n := env.NAMEDATALEN - 1
  let q := env.pgstat_track_activity_query_size - 1
  { e with
    usename := memcpy e.usename (r.usename ++ [0]) (min (strlen r.usename + 1) n),
    datname := memcpy e.datname (r.datname ++ [0]) (min (strlen r.datname + 1) n),
    application_name :=
      memcpy e.application_name (r.application_name ++ [0])
        (min (strlen r.application_name + 1) n),
    wait_event_type :=
      memcpy e.wait_event_type (r.wait_event_type ++ [0])
        (min (strlen r.wait_event_type + 1) n),
    wait_event := memcpy e.wait_event (r.wait_event ++ [0]) (min (strlen r.wait_event + 1) n),
    state := memcpy e.state (r.state ++ [0]) (min (strlen r.state + 1) n),
    client_hostname :=
      memcpy e.client_hostname (r.client_hostname ++ [0])
        (min (strlen r.client_hostname + 1) n),
    top_level_query :=
      memcpy e.top_level_query (r.query ++ [0]) (min (strlen r.query + 1) q),
    backend_type :=
      memcpy e.backend_type (r.backend_type ++ [0]) (min (strlen r.backend_type + 1) n),
    client_addr :=
      memcpy e.client_addr (r.client_addr ++ [0]) (min (strlen r.client_addr + 1) n),
    client_port := r.client_port,
    datid := r.datid,
    usesysid := r.usesysid,
    pid := r.pid,
    backend_xmin := r.backend_xmin,
    backend_xid := r.backend_xid,
    backend_start := r.backend_start,
    xact_start := r.xact_start,
    query_start := r.query_start,
    state_change := r.state_change }

/-- Line 634 of `ash_entry_store`:
`len = Max(Min(newprocentry.qlen, pgstat_track_activity_query_size-1), 1)`. -/
def resolved_len (env : Env) (newprocentry : procEntry) : Nat :=
  max (min newprocentry.qlen (env.pgstat_track_activity_query_size - 1)) 1

/-- Lines 633-637 of `ash_entry_store`: the slot after the identity, the resolved text,
its terminator and the capture time are written. -/
def store_resolved (env : Env) (e : ashEntry) (newprocentry : procEntry) (ash_time : Int) :
    ashEntry :=
  let len := resolved_len env newprocentry
  { e with
    queryid := newprocentry.queryid,
    query := (memcpy e.query newprocentry.query len).set len 0,
    ash_time := ash_time }

/-- The function `ash_entry_store(ash_time, inserted, pid, ...)`. -/
def ash_entry_store (env : Env) (st : State) (ash_time : Int) (inserted : Nat)
    (r : ActivityRecord) : Outcome :=
  match st.AshEntryArray with
  | none => .undefined
  | some arr =>
    match arr[inserted]? with
    | none => .undefined
    | some e =>
      let e1 := store_activity env e r
      match search_procentry st r.pid with
      | .undefined => .undefined
      | .error err => .raised { st with AshEntryArray := some (arr.set inserted e1) } err
      | .ok newprocentry =>
        .returned { st with
          AshEntryArray := some (arr.set inserted (store_resolved env e1 newprocentry ash_time)) }

/-- The function `ash_prepare_store(ash_time, pid, ...)`.  The debug-only `Assert` is not
modelled. -/
def ash_prepare_store (env : Env) (st : State) (ash_time : Int) (r : ActivityRecord) :
    Outcome :=
  match st.AshEntryArray with
  | none => .returned st
  | some _ =>
    if st.ash_max_entries = 0 then .undefined
    else
      let inserted := st.inserted % st.ash_max_entries + 1
      ash_entry_store env { st with inserted := inserted } ash_time (inserted - 1) r

/-! ## pg_active_session_history -/

/-- A column value, named after the conversion that produces it. -/
inductive Datum where
  | TimestampTz (v : Int)
  | ObjectId (v : Nat)
  | Int32 (v : Int)
  | TransactionId (v : Nat)
  | Int64 (v : Nat)
  | Text (bytes : List Nat)
deriving DecidableEq, Repr

/-- A row handed to `tuplestore_putvalues`: column `j` is `none` when `nulls[j]` is set. -/
abbrev Row := List (Option Datum)

/-- A text column: null when the buffer starts with NUL. -/
def text_column (buf : List Nat) : Option Datum :=
  if buf.getD 0 0 ≠ 0 then some (.Text (cstring buf)) else none

/-- Lines 1011-1138 of `pg_active_session_history_internal`: the columns of a slot whose
capture time is not zero. -/
def row_of_entry (e : ashEntry) : Row :=
  [ some (.TimestampTz e.ash_time),
    if e.datid ≠ 0 then some (.ObjectId e.datid) else none,
    text_column e.datname,
    if e.pid ≠ 0 then some (.Int32 e.pid) else none,
    if e.usesysid ≠ 0 then some (.ObjectId e.usesysid) else none,
    text_column e.usename,
    text_column e.application_name,
    text_column e.client_addr,
    text_column e.client_hostname,
    if e.client_port ≠ 0 then some (.Int32 e.client_port) else none,
    if e.backend_start ≠ 0 then some (.TimestampTz e.backend_start) else none,
    if e.xact_start ≠ 0 then some (.TimestampTz e.xact_start) else none,
    if e.query_start ≠ 0 then some (.TimestampTz e.query_start) else none,
    if e.state_change ≠ 0 then some (.TimestampTz e.state_change) else none,
    text_column e.wait_event_type,
    text_column e.wait_event,
    text_column e.state,
    if e.backend_xid ≠ 0 then some (.TransactionId e.backend_xid) else none,
    if e.backend_xmin ≠ 0 then some (.TransactionId e.backend_xmin) else none,
    text_column e.top_level_query,
    text_column e.query,
    some (.Int64 e.queryid),
    text_column e.backend_type ]

/-- The loop of `pg_active_session_history_internal` from index `i`, with
`fuel = ash_max_entries - i` iterations left and the rows stored so far. -/
def history_loop (arr : List ashEntry) : Nat → Nat → List Row → Result (List Row)
  | 0, _, tupstore => .ok tupstore
  | fuel + 1, i, tupstore =>
    match arr[i]? with
    | none => .undefined
    | some e =>
      if e.ash_time ≠ 0 then history_loop arr fuel (i + 1) (tupstore ++ [row_of_entry e])
      else .ok tupstore

/-- What the caller of the set-returning function provides: whether `rsinfo` is a
`ReturnSetInfo`, whether it allows `SFRM_Materialize`, and whether the declared result
type is a row type. -/
structure FunctionCallInfo where
  rsinfo_is_ReturnSetInfo : Bool
  allows_SFRM_Materialize : Bool
  result_is_composite : Bool
deriving DecidableEq, Repr

/-- The function `pg_active_session_history_internal(fcinfo)`: the rows put in the tuple
store, or the error raised. -/
def pg_active_session_history_internal (st : State) (fcinfo : FunctionCallInfo) :
    Result (List Row) :=
  match st.AshEntryArray with
  | none =>
    .error ⟨.ERRCODE_OBJECT_NOT_IN_PREREQUISITE_STATE,
      .must_be_loaded_via_shared_preload_libraries⟩
  | some arr =>
    if !fcinfo.rsinfo_is_ReturnSetInfo then
      .error ⟨.ERRCODE_FEATURE_NOT_SUPPORTED,
        .set_valued_function_called_in_context_that_cannot_accept_a_set⟩
    else if !fcinfo.allows_SFRM_Materialize then
      .error ⟨.ERRCODE_FEATURE_NOT_SUPPORTED, .materialize_mode_required⟩
    else if !fcinfo.result_is_composite then
      .error ⟨.ERRCODE_INTERNAL_ERROR, .return_type_must_be_a_row_type⟩
    else history_loop arr st.ash_max_entries 0 []

/-! ## pgsentinel_main, pgsentinel_load_params -/

/-- One tuple returned by the activity query, in the order of its select list; `none` is
a NULL column. -/
structure SpiRow where
  datid : Option Nat
  datname : Option (List Nat)
  pid : Option Int
  usesysid : Option Nat
  usename : Option (List Nat)
  application_name : Option (List Nat)
  client_addr : Option (List Nat)
  client_hostname : Option (List Nat)
  client_port : Option Int
  backend_start : Option Int
  xact_start : Option Int
  query_start : Option Int
  state_change : Option Int
  wait_event_type : Option (List Nat)
  wait_event : Option (List Nat)
  state : Option (List Nat)
  backend_xid : Option Nat
  backend_xmin : Option Nat
  query : Option (List Nat)
  backend_type : Option (List Nat)
deriving DecidableEq, Repr

/-- Lines 726-845 of `pgsentinel_main`: the arguments passed to `ash_prepare_store` for a
tuple.  `SPI_getbinval` gives the zero datum for a NULL column, and a string left NULL is
passed as the empty string. -/
def fetch_values (row : SpiRow) : ActivityRecord :=
  { pid := row.pid.getD 0,
    usename := row.usename.getD [],
    client_port := row.client_port.getD 0,
    datid := row.datid.getD 0,
    datname := row.datname.getD [],
    application_name := row.application_name.getD [],
    client_addr := row.client_addr.getD [],
    backend_xmin := row.backend_xmin.getD 0,
    backend_start := row.backend_start.getD 0,
    xact_start := row.xact_start.getD 0,
    query_start := row.query_start.getD 0,
    state_change := row.state_change.getD 0,
    wait_event_type := row.wait_event_type.getD [],
    wait_event := row.wait_event.getD [],
    state := row.state.getD [],
    client_hostname := row.client_hostname.getD [],
    query := row.query.getD [],
    backend_type := row.backend_type.getD [],
    usesysid := row.usesysid.getD 0,
    backend_xid := row.backend_xid.getD 0 }

/-- The loop of lines 724-846 of `pgsentinel_main` over the tuples left, with the capture
time read before the loop.  An error raised by a store ends the loop. -/
def store_rows (env : Env) : State → Int → List SpiRow → Outcome
  | st, _, [] => .returned st
  | st, ash_time, row :: rows =>
    match ash_prepare_store env st ash_time (fetch_values row) with
    | .returned st1 => store_rows env st1 ash_time rows
    | other => other

/-- Lines 720-848 of `pgsentinel_main`, one tick after the activity query returned
`SPI_OK_SELECT` with the tuples `tuptable`: `ash_time` is the value that
`GetCurrentTimestamp()` gives, read once when there is at least one tuple. -/
def pgsentinel_tick (env : Env) (st : State) (ash_time : Int) (tuptable : List SpiRow) :
    Outcome :=
  if 0 < tuptable.length then store_rows env st ash_time tuptable else .returned st

/-- The contexts of a configuration variable that the library uses. -/
inductive GucContext where
  | PGC_POSTMASTER
  | PGC_SIGHUP
deriving DecidableEq, Repr

/-- What `DefineCustomIntVariable` declares: boot value, range and context. -/
structure IntVariable where
  bootValue : Nat
  minValue : Nat
  maxValue : Nat
  context : GucContext
deriving DecidableEq, Repr

/-- The C constant `INT_MAX`. -/
def INT_MAX : Nat := 2147483647

/-- Lines 874-885 of `pgsentinel_load_params`: the variable
`pgsentinel_ash.max_entries`, bound to `ash_max_entries`. -/
def max_entries_variable : IntVariable :=
  { bootValue := 1000, minValue := 1000, maxValue := INT_MAX, context := .PGC_SIGHUP }

/-- The host function `ProcessConfigFile(PGC_SIGHUP)`, which is outside this repository,
on one integer variable whose current value is `current`, `configured` being the value
the configuration file now gives, if any: a variable of context `PGC_SIGHUP` takes a
configured value of its range, a variable of context `PGC_POSTMASTER` keeps the value it
had at server start. -/
def ProcessConfigFile (v : IntVariable) (current : Nat) (configured : Option Nat) : Nat :=
  match configured with
  | none => current
  | some value =>
    if v.context = .PGC_SIGHUP ∧ v.minValue ≤ value ∧ value ≤ v.maxValue then value
    else current

/-- Lines 689-695 of `pgsentinel_main`: the sampler processes a SIGHUP; the
configuration file now gives `pgsentinel_ash.max_entries` the value `configured`. -/
def sighup (st : State) (configured : Option Nat) : State :=
  { st with
    ash_max_entries := ProcessConfigFile max_entries_variable st.ash_max_entries configured }

/-! ## The system as a transition system -/

/-- What can change the shared state: the sampler stores one activity record
(`ash_prepare_store`), a backend runs the parse hook (`ash_post_parse_analyze`), or the
host gives process slot `i` a new pid (a backend starts there, or exits with pid `0`). -/
inductive Event where
  | sample (ash_time : Int) (r : ActivityRecord)
  | parse (MyProc : Option Nat) (p_sourcetext : List Nat) (stmt_location stmt_len : Int)
      (queryId : Nat)
  | setpid (i : Nat) (pid : Int)
deriving DecidableEq, Repr

/-- One transition. -/
def step (env : Env) (st : State) : Event → Outcome
  | .sample ash_time r => ash_prepare_store env st ash_time r
  | .parse MyProc p_sourcetext stmt_location stmt_len queryId =>
    ash_post_parse_analyze env st MyProc p_sourcetext stmt_location stmt_len queryId
  | .setpid i pid => .returned { st with allProcs := st.allProcs.set i ⟨pid⟩ }

/-- A sequence of transitions, stopped by the first one that does not return. -/
def run (env : Env) : State → List Event → Outcome
  | st, [] => .returned st
  | st, ev :: evs =>
    match step env st ev with
    | .returned st1 => run env st1 evs
    | other => other

/-- Number of `sample` events, that is of appends to the ring. -/
def appends : List Event → Nat
  | [] => 0
  | .sample _ _ :: evs => appends evs + 1
  | _ :: evs => appends evs

/-- Every append of the sequence carries a capture time other than zero. -/
def nonzero_times : List Event → Bool
  | [] => true
  | .sample ash_time _ :: evs => ash_time != 0 && nonzero_times evs
  | _ :: evs => nonzero_times evs

/-! ## Specification-level notions -/

/-- Trimming as the specification words it: the lexer whitespace at both ends of the
statement is removed. -/
def lexer_trim (t : List Nat) : List Nat :=
  List.rdropWhile scanner_isspace (t.dropWhile scanner_isspace)

/-- The statement selected by the parser fields, as bytes: the `query_len` bytes at
`querytext` before trimming. -/
def statement_text (p_sourcetext : List Nat) (stmt_location stmt_len : Int) : List Nat :=
  (statement_bounds p_sourcetext stmt_location stmt_len).1.take
    (statement_bounds p_sourcetext stmt_location stmt_len).2

/-- Invariant of an attached ring of capacity `C` after `m` appends: the capacity is
unchanged, the cursor is at most `C` and congruent to `m`, and the query table covers
the process array. -/
def ring_inv (C m : Nat) (st : State) : Prop :=
  st.ash_max_entries = C ∧ (∃ arr, st.AshEntryArray = some arr ∧ arr.length = C) ∧
  st.inserted ≤ C ∧ st.inserted % C = m % C ∧
  st.allProcs.length ≤ st.ProcEntryArray.length

/-- Invariant of a ring that has not wrapped yet, after `m ≤ C` appends with capture
times other than zero: the cursor is `m`, the slots below `m` carry a capture time and
the slots from `m` on are still zero. -/
def fill_inv (C m : Nat) (st : State) : Prop :=
  m ≤ C ∧ st.inserted = m ∧
  ∀ arr, st.AshEntryArray = some arr → ∀ j e, arr[j]? = some e →
    (j < m → e.ash_time ≠ 0) ∧ (m ≤ j → e.ash_time = 0)

/-- What the specification has `record` store in the slot `entry` for a statement whose
trimmed text is `t`: the first `max - 1` bytes of `t` at the start of the buffer, their
number as the length, and as identity the one assigned by the parser or, when that is
zero, the seed-0 hash of `t`. -/
def recorded (env : Env) (entry : procEntry) (t : List Nat) (queryId : Nat) : procEntry :=
  { query :=
      t.take (env.pgstat_track_activity_query_size - 1)
        ++ entry.query.drop (min t.length (env.pgstat_track_activity_query_size - 1)),
    qlen := min t.length (env.pgstat_track_activity_query_size - 1),
    queryid := if queryId = 0 then env.hash_any_extended t 0 else queryId }

/-- The debug assertions of `ash_post_parse_analyze`: a statement with a known location
and a positive length ends inside the source text. -/
def statement_inside (p_sourcetext : List Nat) (stmt_location stmt_len : Int) : Prop :=
  0 ≤ stmt_location → 0 < stmt_len →
    stmt_len.toNat ≤ strlen (p_sourcetext.drop stmt_location.toNat)

/-- A string buffer of `size` bytes whose last byte is NUL. -/
def terminated (size : Nat) (buf : List Nat) : Prop :=
  buf.length = size ∧ buf[size - 1]? = some 0

/-- Every string field of a ring slot has its allocated size and a NUL in its last
byte. -/
def slot_ok (env : Env) (e : ashEntry) : Prop :=
  terminated env.NAMEDATALEN e.usename ∧
  terminated env.NAMEDATALEN e.datname ∧
  terminated env.NAMEDATALEN e.application_name ∧
  terminated env.NAMEDATALEN e.wait_event_type ∧
  terminated env.NAMEDATALEN e.wait_event ∧
  terminated env.NAMEDATALEN e.state ∧
  terminated env.NAMEDATALEN e.client_hostname ∧
  terminated env.pgstat_track_activity_query_size e.top_level_query ∧
  terminated env.pgstat_track_activity_query_size e.query ∧
  terminated env.NAMEDATALEN e.backend_type ∧
  terminated env.NAMEDATALEN e.client_addr

/-- The layout of the shared memory: every slot of the ring is `slot_ok` and every text
buffer of the query table has the statement-text size. -/
def layout_ok (env : Env) (st : State) : Prop :=
  (∀ arr, st.AshEntryArray = some arr → ∀ e ∈ arr, slot_ok env e) ∧
  ∀ entry ∈ st.ProcEntryArray, entry.query.length = env.pgstat_track_activity_query_size

/-- Every parse event of the sequence delimits a statement inside its source text. -/
def parses_inside : List Event → Prop
  | [] => True
  | .parse _ p_sourcetext stmt_location stmt_len _ :: evs =>
    statement_inside p_sourcetext stmt_location stmt_len ∧ parses_inside evs
  | _ :: evs => parses_inside evs

/-- The slot indices written by `n` consecutive appends to a ring whose capacity
variable is `C`, the cursor being `c` before the first. -/
def tick_slots (C : Nat) : Nat → Nat → List Nat
  | _, 0 => []
  | c, n + 1 => c % C :: tick_slots C (c % C + 1) n

/-- Statement delimiting as the specification words it, for source text `s`, byte offset
`o` and length `l`: `s[o, o+l)` when `o ≥ 0` and `l > 0`, the rest of the string from `o`
when `o ≥ 0` and `l ≤ 0`, the whole of `s` when `o < 0`. -/
def delimited (s : List Nat) (o l : Int) : List Nat :=
  if 0 ≤ o ∧ 0 < l then (s.drop o.toNat).take l.toNat
  else if 0 ≤ o then s.drop o.toNat
  else s

/-- A nullable text column as the specification words it: null for the empty string,
the string otherwise. -/
def nullable_text (buf : List Nat) : Option Datum :=
  if cstring buf = [] then none else some (.Text (cstring buf))

/-- The call context accepted by the set-returning function. -/
def materialize_call : FunctionCallInfo :=
  { rsinfo_is_ReturnSetInfo := true, allows_SFRM_Materialize := true,
    result_is_composite := true }

/-! ## Example data -/

/-- A stand-in for the host hash, used in the examples only. -/
def example_hash (bytes : List Nat) (seed : Nat) : Nat :=
  bytes.foldl (fun h b => (h * 31 + b) % 2 ^ 64) seed

/-- A small host: names of 64 bytes, statement texts of 1024 bytes, three process slots. -/
def example_env : Env :=
  { NAMEDATALEN := 64, pgstat_track_activity_query_size := 1024, MaxBackends := 2,
    NUM_AUXILIARY_PROCS := 1, max_prepared_xacts := 0, hash_any_extended := example_hash }

/-- Process slots: a backend with pid 100, a free slot, a backend with pid 200. -/
def example_procs : List PGPROC := [⟨100⟩, ⟨0⟩, ⟨200⟩]

/-- The bytes of `SELECT 1`. -/
def select_1 : List Nat := [83, 69, 76, 69, 67, 84, 32, 49]

/-- The bytes of `SELECT 2`. -/
def select_2 : List Nat := [83, 69, 76, 69, 67, 84, 32, 50]

/-- An activity row of backend `pid` running `query`, not waiting (`CPU`), `active`. -/
def example_record (pid : Int) (query : List Nat) : ActivityRecord :=
  { pid := pid, usename := [117], client_port := 5432, datid := 5, datname := [100],
    application_name := [], client_addr := [], backend_xmin := 0, backend_start := 1000,
    xact_start := 2000, query_start := 3000, state_change := 4000,
    wait_event_type := [67, 80, 85], wait_event := [67, 80, 85],
    state := [97, 99, 116, 105, 118, 101], client_hostname := [], query := query,
    backend_type := [], usesysid := 10, backend_xid := 0 }

/-- The shared state right after startup with a ring of three slots. -/
def example_state : State := ash_shmem_startup example_env 3 example_procs

/-- The state an outcome ends in; `st` when there is none. -/
def Outcome.state_or (o : Outcome) (st : State) : State :=
  match o with
  | .returned s => s
  | .raised s _ => s
  | .undefined => st

/-- Three appends: backend 100, backend 200, backend 100 again. -/
def three_appends : List Event :=
  [.sample 7 (example_record 100 select_1), .sample 8 (example_record 200 select_2),
   .sample 9 (example_record 100 select_1)]

/-- The state after `three_appends`: the ring of three slots is full. -/
def full_state : State := (run example_env example_state three_appends).state_or example_state

/-- The scenario of the specification: backend 100 parses `SELECT 1` (identity 42) and is
sampled, then parses `SELECT 2` (identity 43) and is sampled again. -/
def two_ticks : List Event :=
  [.parse (some 0) select_1 (-1) 0 42, .sample 7 (example_record 100 select_1),
   .parse (some 0) select_2 (-1) 0 43, .sample 9 (example_record 100 select_2)]

/-- The state after `two_ticks`. -/
def two_ticks_state : State := (run example_env example_state two_ticks).state_or example_state

/-- The ring after `two_ticks`. -/
def two_ticks_ring : List ashEntry := two_ticks_state.AshEntryArray.getD []

/-- One append whose capture time is zero. -/
def append_at_time_zero : List Event := [.sample 0 (example_record 100 select_1)]

/-- The value of a result that is `ok`. -/
def Result.ok? {α : Type} : Result α → Option α
  | .ok a => some a
  | _ => none

/-- Backend 100 parses `SELECT 1`, then a statement made of one space, and is sampled. -/
def stale_events : List Event :=
  [.parse (some 0) select_1 (-1) 0 42, .parse (some 0) [32] (-1) 0 42,
   .sample 7 (example_record 100 select_1)]

/-- The state after `stale_events`. -/
def stale_state : State := (run example_env example_state stale_events).state_or example_state

/-- A statement of 1030 bytes `x`, longer than the 1023 bytes a slot can keep. -/
def long_statement : List Nat := List.replicate 1030 120

/-- A host whose statement-text size is the minimum the server allows, 100 bytes. -/
def compact_env : Env :=
  { NAMEDATALEN := 64, pgstat_track_activity_query_size := 100, MaxBackends := 2,
    NUM_AUXILIARY_PROCS := 1, max_prepared_xacts := 0, hash_any_extended := example_hash }

/-- The shared state right after startup of the compact host, ring of three slots. -/
def compact_state : State := ash_shmem_startup compact_env 3 example_procs

/-- A statement of 105 bytes `x`, longer than the 99 bytes a slot of the compact host can
keep. -/
def wide_statement_1 : List Nat := List.replicate 105 120

/-- A statement of 105 bytes, equal to `wide_statement_1` on its first 104 bytes and
ending in `y`. -/
def wide_statement_2 : List Nat := List.replicate 104 120 ++ [121]

/-- A tuple of the activity query for backend `pid` running `query`. -/
def example_row (pid : Int) (query : List Nat) : SpiRow :=
  { datid := some 5, datname := some [100], pid := some pid, usesysid := some 10,
    usename := some [117], application_name := none, client_addr := none,
    client_hostname := none, client_port := some 5432, backend_start := some 1000,
    xact_start := some 2000, query_start := some 3000, state_change := some 4000,
    wait_event_type := some [67, 80, 85], wait_event := some [67, 80, 85],
    state := some [97, 99, 116, 105, 118, 101], backend_xid := none, backend_xmin := none,
    query := some query, backend_type := none }

/-- Slot 1 of the ring after `two_ticks`. -/
def two_ticks_slot_1 : ashEntry := (two_ticks_ring[1]?).getD (zero_ashEntry example_env)

/-- Backend 100 parses `SELECT 1` (identity 42), backend 200 parses `SELECT 2`
(identity 43), then three appends fill the ring: backend 100, backend 200, backend 100. -/
def busy_events : List Event :=
  [.parse (some 0) select_1 (-1) 0 42, .parse (some 2) select_2 (-1) 0 43,
   .sample 7 (example_record 100 select_1), .sample 8 (example_record 200 select_2),
   .sample 9 (example_record 100 select_1)]

/-- The state after `busy_events`: a full ring of three slots, cursor 3. -/
def busy_state : State := (run example_env example_state busy_events).state_or example_state

/-- A tick at time 10 on `busy_state` that observes backend 200 and then a pid, 999, that
no process slot holds. -/
def faulty_tick : Outcome :=
  pgsentinel_tick example_env busy_state 10 [example_row 200 select_2, example_row 999 select_1]

/-- The state in which `faulty_tick` ends. -/
def faulty_state : State := faulty_tick.state_or busy_state

/-- What the examples read of a ring slot: worker id, query identity, capture time,
top-level text and resolved text. -/
def slot_view (st : State) (i : Nat) : Option (Int × Nat × Int × List Nat × List Nat) :=
  ((st.AshEntryArray.getD [])[i]?).map
    (fun e => (e.pid, e.queryid, e.ash_time, cstring e.top_level_query, cstring e.query))

/-- A tick at time 7 on the fresh ring that observes backends 100 and 200. -/
def good_tick_state : State :=
  (pgsentinel_tick example_env example_state 7
    [example_row 100 select_1, example_row 200 select_2]).state_or example_state

/-- The state after one more append on `two_ticks_state`, for backend 100 running the
long statement. -/
def appended_state : State :=
  (ash_prepare_store example_env two_ticks_state 11
    (example_record 100 long_statement)).state_or two_ticks_state

/-- A thousand appends for backend 100. -/
def thousand_appends : List Event :=
  List.replicate 1000 (.sample 7 (example_record 100 select_1))

/-! ## Lemmas on bytes and buffers -/

theorem strlen_le_length (s : List Nat) : strlen s ≤ s.length := by
  unfold strlen
  exact (List.takeWhile_sublist _).length_le

theorem strlen_eq_length_of_no_nul (s : List Nat) (h : ∀ b ∈ s, b ≠ 0) :
    strlen s = s.length := by
  unfold strlen
  rw [List.takeWhile_eq_self_iff.mpr]
  intro b hb
  simpa using h b hb

theorem memcpy_length (dst src : List Nat) (n : Nat) (hsrc : n ≤ src.length)
    (hdst : n ≤ dst.length) : (memcpy dst src n).length = dst.length := by
  unfold memcpy
  simp [List.length_append, List.length_take, List.length_drop]
  omega

theorem memcpy_take (dst src : List Nat) (n : Nat) (hsrc : n ≤ src.length) :
    (memcpy dst src n).take n = src.take n := by
  unfold memcpy
  rw [List.take_append_of_le_length (by simp [List.length_take]; omega)]
  simp [List.take_take]

theorem memcpy_drop (dst src : List Nat) (n : Nat) (hsrc : n ≤ src.length) :
    (memcpy dst src n).drop n = dst.drop n := by
  unfold memcpy
  have h : (src.take n).length = n := by simp [List.length_take]; omega
  rw [List.drop_append_of_le_length (by omega)]
  simp [List.drop_eq_nil_of_le, h]

theorem take_set_self (l : List Nat) (n a : Nat) : (l.set n a).take n = l.take n := by
  apply List.ext_getElem?
  intro i
  rw [List.getElem?_take, List.getElem?_take]
  split
  · rename_i h
    rw [List.getElem?_set, if_neg (by omega)]
  · rfl

/-! ## Trimming: the loops compute `lexer_trim` -/

theorem skip_leading_space_spec (n : Nat) :
    ∀ querytext : List Nat, n ≤ querytext.length →
      (skip_leading_space querytext n).2 ≤ (skip_leading_space querytext n).1.length ∧
      (skip_leading_space querytext n).1.take (skip_leading_space querytext n).2
        = (querytext.take n).dropWhile scanner_isspace := by
  induction n with
  | zero => intro querytext _; simp [skip_leading_space]
  | succ n ih =>
    intro querytext hlen
    cases querytext with
    | nil => simp at hlen
    | cons a rest =>
      have hrest : n ≤ rest.length := by simpa using hlen
      by_cases ha : scanner_isspace a = true
      · have := ih rest hrest
        simpa [skip_leading_space, ha, List.dropWhile_cons] using this
      · simp [skip_leading_space, ha, List.dropWhile_cons, hrest]

theorem skip_trailing_space_le (querytext : List Nat) (n : Nat) :
    skip_trailing_space querytext n ≤ n := by
  induction n with
  | zero => simp [skip_trailing_space]
  | succ n ih =>
    unfold skip_trailing_space
    split
    · omega
    · omega

theorem skip_trailing_space_spec (querytext : List Nat) (n : Nat) (hlen : n ≤ querytext.length) :
    querytext.take (skip_trailing_space querytext n)
      = List.rdropWhile scanner_isspace (querytext.take n) := by
  induction n with
  | zero => simp [skip_trailing_space]
  | succ n ih =>
    have hn : n < querytext.length := by omega
    have htake : querytext.take (n + 1) = querytext.take n ++ [querytext[n]] := by
      rw [List.take_succ, List.getElem?_eq_getElem hn]; rfl
    have hget : querytext.getD n 0 = querytext[n] := by
      simp [List.getD, List.getElem?_eq_getElem hn]
    rw [htake, List.rdropWhile_concat]
    unfold skip_trailing_space
    rw [hget]
    by_cases hs : scanner_isspace querytext[n] = true
    · simp only [hs, if_true]
      exact ih (by omega)
    · simp only [hs, if_false]
      exact htake

/-- Both trimming loops together: the bytes finally delimited are the trimmed statement. -/
theorem trimmed_bounds_spec (querytext : List Nat) (n : Nat) (hlen : n ≤ querytext.length) :
    (trimmed_bounds (querytext, n)).2 ≤ (trimmed_bounds (querytext, n)).1.length ∧
    (trimmed_bounds (querytext, n)).1.take (trimmed_bounds (querytext, n)).2
      = lexer_trim (querytext.take n) := by
  obtain ⟨h1, h2⟩ := skip_leading_space_spec n querytext hlen
  unfold trimmed_bounds lexer_trim
  simp only
  constructor
  · exact le_trans (skip_trailing_space_le _ _) h1
  · rw [skip_trailing_space_spec _ _ h1, h2]

/-! ## Properties of `lexer_trim` -/

theorem scanner_isspace_ne_zero (b : Nat) (h : scanner_isspace b = true) : b ≠ 0 := by
  intro hb
  subst hb
  simp [scanner_isspace] at h

theorem dropWhile_head_false (p : Nat → Bool) :
    ∀ (s : List Nat) (a : Nat) (rest : List Nat), s.dropWhile p = a :: rest → p a = false := by
  intro s
  induction s with
  | nil => intro a rest h; simp at h
  | cons b s ih =>
    intro a rest h
    by_cases hb : p b = true
    · rw [List.dropWhile_cons_of_pos hb] at h
      exact ih a rest h
    · rw [List.dropWhile_cons_of_neg hb] at h
      simp only [List.cons.injEq] at h
      rw [← h.1]
      simpa using hb

theorem rdropWhile_append_of_pos (p : Nat → Bool) (l w : List Nat)
    (hw : ∀ b ∈ w, p b = true) :
    List.rdropWhile p (l ++ w) = List.rdropWhile p l := by
  unfold List.rdropWhile
  rw [List.reverse_append, List.dropWhile_append_of_pos (by simpa using hw)]

/-- Lexer whitespace around a statement does not change its trimmed form. -/
theorem lexer_trim_append (s w1 w2 : List Nat)
    (hw1 : ∀ b ∈ w1, scanner_isspace b = true) (hw2 : ∀ b ∈ w2, scanner_isspace b = true) :
    lexer_trim (w1 ++ s ++ w2) = lexer_trim s := by
  unfold lexer_trim
  rw [List.append_assoc, List.dropWhile_append_of_pos hw1, List.dropWhile_append]
  split
  · rename_i h
    have hnil : s.dropWhile scanner_isspace = [] := by simpa using h
    rw [hnil, List.dropWhile_eq_nil_iff.mpr hw2]
  · exact rdropWhile_append_of_pos _ _ _ hw2

/-- Trimming a trimmed text changes nothing. -/
theorem lexer_trim_idem (s : List Nat) : lexer_trim (lexer_trim s) = lexer_trim s := by
  unfold lexer_trim
  have hd : (List.rdropWhile scanner_isspace (s.dropWhile scanner_isspace)).dropWhile
      scanner_isspace = List.rdropWhile scanner_isspace (s.dropWhile scanner_isspace) := by
    obtain ⟨t, ht⟩ : List.rdropWhile scanner_isspace (s.dropWhile scanner_isspace)
        <+: s.dropWhile scanner_isspace := List.rdropWhile_prefix _ _
    cases hy : List.rdropWhile scanner_isspace (s.dropWhile scanner_isspace) with
    | nil => rfl
    | cons a y =>
      rw [hy] at ht
      have ha := dropWhile_head_false scanner_isspace s a (y ++ t) (by rw [← ht]; rfl)
      rw [List.dropWhile_cons_of_neg (by simp [ha])]
  rw [hd, List.rdropWhile_idempotent]

theorem lexer_trim_no_nul (s : List Nat) (hs : ∀ b ∈ s, b ≠ 0) :
    ∀ b ∈ lexer_trim s, b ≠ 0 := by
  intro b hb
  apply hs
  have h1 : List.Sublist (lexer_trim s) (s.dropWhile scanner_isspace) :=
    (List.rdropWhile_prefix _ _).sublist
  exact (List.dropWhile_sublist _).subset (h1.subset hb)

/-! ## The parse hook -/

/-- A statement given by an unknown location, or by location 0 with no length, is the
whole source text. -/
theorem statement_text_whole (src : List Nat) (loc len : Int)
    (hwhole : loc < 0 ∨ (loc = 0 ∧ len ≤ 0)) (hnul : ∀ b ∈ src, b ≠ 0) :
    statement_text src loc len = src := by
  have hl := strlen_eq_length_of_no_nul src hnul
  unfold statement_text statement_bounds
  rcases hwhole with h | ⟨h1, h2⟩
  · rw [if_neg (by omega)]
    simp [hl]
  · subst h1
    simp [h2, hl]

theorem statement_inside_whole (src : List Nat) (loc len : Int)
    (hwhole : loc < 0 ∨ (loc = 0 ∧ len ≤ 0)) : statement_inside src loc len := by
  intro h1 h2
  omega

theorem statement_bounds_le (p_sourcetext : List Nat) (stmt_location stmt_len : Int)
    (hin : statement_inside p_sourcetext stmt_location stmt_len) :
    (statement_bounds p_sourcetext stmt_location stmt_len).2
      ≤ (statement_bounds p_sourcetext stmt_location stmt_len).1.length := by
  unfold statement_bounds
  by_cases hloc : 0 ≤ stmt_location
  · rw [if_pos hloc]
    by_cases hlen : stmt_len ≤ 0
    · simp only [if_pos hlen]
      exact strlen_le_length _
    · simp only [if_neg hlen]
      exact le_trans (hin hloc (by omega)) (strlen_le_length _)
  · rw [if_neg hloc]
    exact strlen_le_length _

/-- What lines 251-266 store depends on the `query_len` bytes at `querytext` only. -/
theorem store_statement_eq_recorded (env : Env) (entry : procEntry) (querytext : List Nat)
    (query_len queryId : Nat) (hlen : query_len ≤ querytext.length) :
    store_statement env entry querytext query_len queryId
      = recorded env entry (querytext.take query_len) queryId := by
  have hl : (querytext.take query_len).length = query_len := by
    rw [List.length_take]; omega
  unfold store_statement recorded ash_hash64_string memcpy
  simp only [hl]
  congr 1
  congr 1
  rw [List.take_take]
  congr 1
  omega

/-- The hook in closed form: the slot of the backend receives what the specification
says, for the trimmed text of the delimited statement. -/
theorem ash_post_parse_analyze_eq (env : Env) (st : State) (i : Nat) (entry : procEntry)
    (p_sourcetext : List Nat) (stmt_location stmt_len : Int) (queryId : Nat)
    (hentry : st.ProcEntryArray[i]? = some entry)
    (hin : statement_inside p_sourcetext stmt_location stmt_len) :
    ash_post_parse_analyze env st (some i) p_sourcetext stmt_location stmt_len queryId
      = .returned { st with
          ProcEntryArray := st.ProcEntryArray.set i
            (recorded env entry
              (lexer_trim (statement_text p_sourcetext stmt_location stmt_len)) queryId) } := by
  obtain ⟨h1, h2⟩ := trimmed_bounds_spec
    (statement_bounds p_sourcetext stmt_location stmt_len).1
    (statement_bounds p_sourcetext stmt_location stmt_len).2
    (statement_bounds_le p_sourcetext stmt_location stmt_len hin)
  unfold ash_post_parse_analyze
  simp only [hentry]
  rw [store_statement_eq_recorded env entry _ _ queryId h1, h2]
  rfl

/-- The hook reads the source text through the trimmed statement only. -/
theorem ash_post_parse_analyze_congr (env : Env) (st : State) (MyProc : Option Nat)
    (src1 src2 : List Nat) (loc1 len1 loc2 len2 : Int) (queryId : Nat)
    (hin1 : statement_inside src1 loc1 len1) (hin2 : statement_inside src2 loc2 len2)
    (htrim : lexer_trim (statement_text src1 loc1 len1)
      = lexer_trim (statement_text src2 loc2 len2)) :
    ash_post_parse_analyze env st MyProc src1 loc1 len1 queryId
      = ash_post_parse_analyze env st MyProc src2 loc2 len2 queryId := by
  cases MyProc with
  | none => rfl
  | some i =>
    cases hentry : st.ProcEntryArray[i]? with
    | none => simp [ash_post_parse_analyze, hentry]
    | some entry =>
      rw [ash_post_parse_analyze_eq env st i entry src1 loc1 len1 queryId hentry hin1,
        ash_post_parse_analyze_eq env st i entry src2 loc2 len2 queryId hentry hin2, htrim]

/-- The text kept by `recorded`: its first `qlen` bytes are the trimmed statement cut at
`max - 1` bytes, and the buffer is as before from index `qlen` on. -/
theorem recorded_query (env : Env) (entry : procEntry) (t : List Nat) (queryId : Nat) :
    (recorded env entry t queryId).query.take (recorded env entry t queryId).qlen
      = t.take (env.pgstat_track_activity_query_size - 1) ∧
    (recorded env entry t queryId).query.drop (recorded env entry t queryId).qlen
      = entry.query.drop (recorded env entry t queryId).qlen := by
  have hl : (t.take (env.pgstat_track_activity_query_size - 1)).length
      = min t.length (env.pgstat_track_activity_query_size - 1) := by
    rw [List.length_take]; omega
  unfold recorded
  simp only
  constructor
  · rw [List.take_append_of_le_length (by omega), List.take_of_length_le (by omega)]
  · rw [List.drop_append_of_le_length (by omega), List.drop_of_length_le (by omega)]
    rfl

/-! ## The query table search -/

theorem search_procentry_loop_defined (st : State) (pid : Int)
    (hprocs : st.allProcs.length ≤ st.ProcEntryArray.length) :
    ∀ fuel i, i + fuel ≤ st.allProcs.length →
      search_procentry_loop st pid fuel i ≠ .undefined := by
  intro fuel
  induction fuel with
  | zero => intro i _; simp [search_procentry_loop]
  | succ fuel ih =>
    intro i hi
    have h1 : i < st.allProcs.length := by omega
    have h2 : i < st.ProcEntryArray.length := by omega
    unfold search_procentry_loop
    rw [List.getElem?_eq_getElem h1]
    simp only
    split
    · rw [List.getElem?_eq_getElem h2]
      simp
    · exact ih (i + 1) (by omega)

theorem search_procentry_defined (st : State) (pid : Int)
    (hprocs : st.allProcs.length ≤ st.ProcEntryArray.length) :
    search_procentry st pid ≠ .undefined :=
  search_procentry_loop_defined st pid hprocs _ 0 (by omega)

/-- No slot from `i` on matches: the loop raises the error. -/
theorem search_procentry_loop_not_found (st : State) (pid : Int) :
    ∀ fuel i, i + fuel ≤ st.allProcs.length →
      (∀ j proc, i ≤ j → j < i + fuel → st.allProcs[j]? = some proc →
        ¬(proc.pid ≠ 0 ∧ proc.pid = pid)) →
      search_procentry_loop st pid fuel i
        = .error ⟨.ERRCODE_INTERNAL_ERROR, .backend_with_pid_not_found pid⟩ := by
  intro fuel
  induction fuel with
  | zero => intro i _ _; rfl
  | succ fuel ih =>
    intro i hlen hno
    have h1 : i < st.allProcs.length := by omega
    unfold search_procentry_loop
    rw [List.getElem?_eq_getElem h1]
    simp only
    rw [if_neg (hno i _ (le_refl i) (by omega) (List.getElem?_eq_getElem h1))]
    exact ih (i + 1) (by omega) (fun j proc h2 h3 h4 => hno j proc (by omega) (by omega) h4)

/-- Slot `k` is the first match from `i` on: the loop returns its entry. -/
theorem search_procentry_loop_found (st : State) (pid : Int) (k : Nat) (proc : PGPROC)
    (entry : procEntry) (hk : st.allProcs[k]? = some proc) (hpid : proc.pid ≠ 0 ∧ proc.pid = pid)
    (hentry : st.ProcEntryArray[k]? = some entry) :
    ∀ fuel i, i ≤ k → k < i + fuel →
      (∀ j q, i ≤ j → j < k → st.allProcs[j]? = some q → ¬(q.pid ≠ 0 ∧ q.pid = pid)) →
      search_procentry_loop st pid fuel i = .ok entry := by
  have hklen : k < st.allProcs.length := by
    by_contra hcon
    rw [List.getElem?_eq_none (by omega)] at hk
    cases hk
  intro fuel
  induction fuel with
  | zero => intro i h1 h2 _; omega
  | succ fuel ih =>
    intro i h1 h2 hno
    have hi : i < st.allProcs.length := by omega
    unfold search_procentry_loop
    rw [List.getElem?_eq_getElem hi]
    simp only
    by_cases hik : i = k
    · subst hik
      rw [List.getElem?_eq_getElem hi] at hk
      simp only [Option.some.injEq] at hk
      rw [hk, if_pos hpid, hentry]
    · rw [if_neg (hno i _ (le_refl i) (by omega) (List.getElem?_eq_getElem hi))]
      exact ih (i + 1) (by omega) (by omega)
        (fun j q h3 h4 h5 => hno j q (by omega) h4 h5)

/-- The search returns the entry of the first slot held by a live backend with the pid. -/
theorem search_procentry_found (st : State) (pid : Int) (k : Nat) (proc : PGPROC)
    (entry : procEntry) (hk : st.allProcs[k]? = some proc) (hpid : proc.pid ≠ 0 ∧ proc.pid = pid)
    (hentry : st.ProcEntryArray[k]? = some entry)
    (hfirst : ∀ j q, j < k → st.allProcs[j]? = some q → ¬(q.pid ≠ 0 ∧ q.pid = pid)) :
    search_procentry st pid = .ok entry := by
  have hklen : k < st.allProcs.length := by
    by_contra hcon
    rw [List.getElem?_eq_none (by omega)] at hk
    cases hk
  exact search_procentry_loop_found st pid k proc entry hk hpid hentry _ 0 (by omega)
    (by omega) (fun j q _ h2 h3 => hfirst j q h2 h3)

/-- The search raises the error when no slot is held by a live backend with the pid. -/
theorem search_procentry_not_found (st : State) (pid : Int)
    (hno : ∀ (j : Nat) (proc : PGPROC), st.allProcs[j]? = some proc →
      ¬(proc.pid ≠ 0 ∧ proc.pid = pid)) :
    search_procentry st pid
      = .error ⟨.ERRCODE_INTERNAL_ERROR, .backend_with_pid_not_found pid⟩ :=
  search_procentry_loop_not_found st pid _ 0 (by omega) (fun j proc _ _ h => hno j proc h)

/-- The search reads the process array and the query table only. -/
theorem search_procentry_congr (st st1 : State) (pid : Int)
    (h1 : st1.allProcs = st.allProcs) (h2 : st1.ProcEntryArray = st.ProcEntryArray) :
    search_procentry st1 pid = search_procentry st pid := by
  have hloop : ∀ fuel i,
      search_procentry_loop st1 pid fuel i = search_procentry_loop st pid fuel i := by
    intro fuel
    induction fuel with
    | zero => intro i; rfl
    | succ fuel ih =>
      intro i
      unfold search_procentry_loop
      rw [h1, h2]
      simp only [ih]
  unfold search_procentry
  rw [hloop, h1]

/-! ## Appending to the ring -/

/-- The outcome of `ash_entry_store` on a slot that exists, according to the search. -/
theorem ash_entry_store_eq (env : Env) (st : State) (arr : List ashEntry) (e : ashEntry)
    (ash_time : Int) (i : Nat) (r : ActivityRecord)
    (harr : st.AshEntryArray = some arr) (hi : arr[i]? = some e) :
    ash_entry_store env st ash_time i r =
      match search_procentry st r.pid with
      | .undefined => .undefined
      | .error err =>
        .raised { st with AshEntryArray := some (arr.set i (store_activity env e r)) } err
      | .ok newprocentry =>
        .returned { st with
          AshEntryArray :=
            some (arr.set i (store_resolved env (store_activity env e r) newprocentry ash_time)) } := by
  unfold ash_entry_store
  rw [harr]
  simp only [hi]

/-- The outcome of `ash_prepare_store` on an attached ring whose slot exists. -/
theorem ash_prepare_store_eq (env : Env) (st : State) (arr : List ashEntry) (e : ashEntry)
    (ash_time : Int) (r : ActivityRecord)
    (harr : st.AshEntryArray = some arr) (hC : st.ash_max_entries ≠ 0)
    (hi : arr[st.inserted % st.ash_max_entries]? = some e) :
    ash_prepare_store env st ash_time r =
      match search_procentry st r.pid with
      | .undefined => .undefined
      | .error err =>
        .raised { st with
          inserted := st.inserted % st.ash_max_entries + 1,
          AshEntryArray :=
            some (arr.set (st.inserted % st.ash_max_entries) (store_activity env e r)) } err
      | .ok newprocentry =>
        .returned { st with
          inserted := st.inserted % st.ash_max_entries + 1,
          AshEntryArray :=
            some (arr.set (st.inserted % st.ash_max_entries)
              (store_resolved env (store_activity env e r) newprocentry ash_time)) } := by
  have h := ash_entry_store_eq env { st with inserted := st.inserted % st.ash_max_entries + 1 }
    arr e ash_time (st.inserted % st.ash_max_entries) r harr hi
  unfold ash_prepare_store
  split
  · rename_i h0
    rw [harr] at h0
    cases h0
  · rw [if_neg hC]
    simp only [Nat.add_sub_cancel]
    have hs : search_procentry { st with inserted := st.inserted % st.ash_max_entries + 1 } r.pid
        = search_procentry st r.pid := search_procentry_congr _ _ _ rfl rfl
    rw [h, hs]

/-- The effect of one append on an attached ring: cursor, slot written, frame. -/
theorem ash_prepare_store_effect (env : Env) (st : State) (arr : List ashEntry)
    (ash_time : Int) (r : ActivityRecord)
    (harr : st.AshEntryArray = some arr) (hlen : arr.length = st.ash_max_entries)
    (hC : 1 ≤ st.ash_max_entries)
    (hprocs : st.allProcs.length ≤ st.ProcEntryArray.length) :
    ∃ st1 arr1 e1,
      (ash_prepare_store env st ash_time r = .returned st1 ∧ e1.ash_time = ash_time ∨
        ∃ err, ash_prepare_store env st ash_time r = .raised st1 err) ∧
      st1.inserted = st.inserted % st.ash_max_entries + 1 ∧
      st.inserted % st.ash_max_entries < st.ash_max_entries ∧
      1 ≤ st1.inserted ∧ st1.inserted ≤ st.ash_max_entries ∧
      st1.ash_max_entries = st.ash_max_entries ∧
      st1.AshEntryArray = some arr1 ∧ arr1.length = arr.length ∧
      arr1[st.inserted % st.ash_max_entries]? = some e1 ∧ e1.pid = r.pid ∧
      ∀ j, j ≠ st.inserted % st.ash_max_entries → arr1[j]? = arr[j]? := by
  have hlt : st.inserted % st.ash_max_entries < st.ash_max_entries :=
    Nat.mod_lt _ (by omega)
  have hidx : st.inserted % st.ash_max_entries < arr.length := by omega
  have hi : arr[st.inserted % st.ash_max_entries]? = some arr[st.inserted % st.ash_max_entries] :=
    List.getElem?_eq_getElem hidx
  have heq := ash_prepare_store_eq env st arr _ ash_time r harr (by omega) hi
  have hdef := search_procentry_defined st r.pid hprocs
  cases hs : search_procentry st r.pid with
  | undefined => exact absurd hs hdef
  | error err =>
    rw [hs] at heq
    refine ⟨_, _, store_activity env arr[st.inserted % st.ash_max_entries] r,
      Or.inr ⟨err, heq⟩, rfl, hlt, by simp, by simp; omega, rfl, rfl, by simp, ?_, rfl, ?_⟩
    · simp [List.getElem?_set, hidx]
    · intro j hj
      simp [List.getElem?_set, Ne.symm hj]
  | ok newprocentry =>
    rw [hs] at heq
    refine ⟨_, _,
      store_resolved env (store_activity env arr[st.inserted % st.ash_max_entries] r)
        newprocentry ash_time,
      Or.inl ⟨heq, rfl⟩, rfl, hlt, by simp, by simp; omega, rfl, rfl, by simp, ?_, rfl, ?_⟩
    · simp [List.getElem?_set, hidx]
    · intro j hj
      simp [List.getElem?_set, Ne.symm hj]

/-- A returning append, in closed form. -/
theorem ash_prepare_store_returned (env : Env) (st st1 : State) (arr : List ashEntry)
    (e : ashEntry) (ash_time : Int) (r : ActivityRecord)
    (harr : st.AshEntryArray = some arr) (hC : st.ash_max_entries ≠ 0)
    (hi : arr[st.inserted % st.ash_max_entries]? = some e)
    (h : ash_prepare_store env st ash_time r = .returned st1) :
    ∃ newprocentry, search_procentry st r.pid = .ok newprocentry ∧
      st1 = { st with
        inserted := st.inserted % st.ash_max_entries + 1,
        AshEntryArray :=
          some (arr.set (st.inserted % st.ash_max_entries)
            (store_resolved env (store_activity env e r) newprocentry ash_time)) } := by
  rw [ash_prepare_store_eq env st arr e ash_time r harr hC hi] at h
  cases hs : search_procentry st r.pid with
  | undefined => rw [hs] at h; cases h
  | error err => rw [hs] at h; cases h
  | ok newprocentry =>
    rw [hs] at h
    simp only [Outcome.returned.injEq] at h
    exact ⟨newprocentry, rfl, h.symm⟩

/-- The resolved text of a slot after lines 633-637: the first `len` bytes of the entry
found, a terminator at index `len`, in a buffer of unchanged size. -/
theorem store_resolved_query (env : Env) (e : ashEntry) (newprocentry : procEntry)
    (ash_time : Int)
    (hsrc : resolved_len env newprocentry ≤ newprocentry.query.length)
    (hdst : resolved_len env newprocentry < e.query.length) :
    (store_resolved env e newprocentry ash_time).query.take (resolved_len env newprocentry)
      = newprocentry.query.take (resolved_len env newprocentry) ∧
    (store_resolved env e newprocentry ash_time).query[resolved_len env newprocentry]?
      = some 0 ∧
    (store_resolved env e newprocentry ash_time).query.length = e.query.length := by
  have hl := memcpy_length e.query newprocentry.query _ hsrc (by omega)
  unfold store_resolved
  simp only
  refine ⟨?_, ?_, ?_⟩
  · rw [take_set_self, memcpy_take _ _ _ hsrc]
  · exact List.getElem?_set_self (by omega)
  · rw [List.length_set, hl]

/-! ## Reading the ring -/

/-- The reading loop returns the rows of the slots from `i` up to the first slot `k` whose
capture time is zero, or up to the bound. -/
theorem history_loop_spec (arr : List ashEntry) :
    ∀ (fuel i k : Nat) (tupstore : List Row), i ≤ k → k ≤ i + fuel →
      i + fuel ≤ arr.length →
      (∀ j e, i ≤ j → j < k → arr[j]? = some e → e.ash_time ≠ 0) →
      (k < i + fuel → ∃ e, arr[k]? = some e ∧ e.ash_time = 0) →
      history_loop arr fuel i tupstore
        = .ok (tupstore ++ ((arr.drop i).take (k - i)).map row_of_entry) := by
  intro fuel
  induction fuel with
  | zero =>
    intro i k tupstore hik hk _ _ _
    have : k - i = 0 := by omega
    simp [history_loop, this]
  | succ fuel ih =>
    intro i k tupstore hik hk hlen hnz hz
    have hi : i < arr.length := by omega
    unfold history_loop
    rw [List.getElem?_eq_getElem hi]
    simp only
    by_cases hki : k = i
    · subst hki
      obtain ⟨e, he, hzero⟩ := hz (by omega)
      rw [List.getElem?_eq_getElem hi] at he
      simp only [Option.some.injEq] at he
      subst he
      simp [hzero]
    · have hnzi : arr[i].ash_time ≠ 0 :=
        hnz i arr[i] (le_refl i) (by omega) (List.getElem?_eq_getElem hi)
      rw [if_pos hnzi]
      rw [ih (i + 1) k _ (by omega) (by omega) (by omega)
        (fun j e h1 h2 h3 => hnz j e (by omega) h2 h3)
        (fun h => hz (by omega))]
      have hsplit : k - i = (k - (i + 1)) + 1 := by omega
      rw [hsplit, List.drop_eq_getElem_cons hi, List.take_succ_cons]
      simp

/-- The rows returned for an attached ring whose declared capacity is its size. -/
theorem history_spec (st : State) (arr : List ashEntry) (k : Nat)
    (harr : st.AshEntryArray = some arr) (hlen : arr.length = st.ash_max_entries)
    (hk : k ≤ arr.length)
    (hnz : ∀ j e, j < k → arr[j]? = some e → e.ash_time ≠ 0)
    (hz : k < arr.length → ∃ e, arr[k]? = some e ∧ e.ash_time = 0) :
    pg_active_session_history_internal st materialize_call
      = .ok ((arr.take k).map row_of_entry) := by
  unfold pg_active_session_history_internal
  rw [harr]
  simp only [materialize_call, Bool.not_true, Bool.false_eq_true, if_false]
  rw [history_loop_spec arr st.ash_max_entries 0 k [] (by omega) (by omega) (by omega)
    (fun j e _ h2 h3 => hnz j e h2 h3) (fun h => hz (by omega))]
  simp

/-! ## Runs of the system -/

/-- A parse event or a pid change leaves the ring, the cursor and the capacity alone and
keeps the sizes of the process array and of the query table. -/
theorem step_frame (env : Env) (st st1 : State) (ev : Event)
    (hev : ∀ ash_time r, ev ≠ .sample ash_time r)
    (h : step env st ev = .returned st1) :
    st1.ash_max_entries = st.ash_max_entries ∧ st1.AshEntryArray = st.AshEntryArray ∧
    st1.inserted = st.inserted ∧ st1.allProcs.length = st.allProcs.length ∧
    st1.ProcEntryArray.length = st.ProcEntryArray.length := by
  cases ev with
  | sample ash_time r => exact absurd rfl (hev ash_time r)
  | setpid i pid =>
    simp only [step, Outcome.returned.injEq] at h
    subst h
    simp
  | parse MyProc p_sourcetext stmt_location stmt_len queryId =>
    simp only [step, ash_post_parse_analyze] at h
    cases MyProc with
    | none =>
      simp only [Outcome.returned.injEq] at h
      subst h
      simp
    | some i =>
      simp only at h
      cases hi : st.ProcEntryArray[i]? with
      | none => rw [hi] at h; cases h
      | some entry =>
        rw [hi] at h
        simp only [Outcome.returned.injEq] at h
        subst h
        simp

theorem step_ring_inv (env : Env) (C m : Nat) (st st1 : State) (ev : Event) (hC : 1 ≤ C)
    (hinv : ring_inv C m st) (h : step env st ev = .returned st1) :
    ring_inv C (m + appends [ev]) st1 := by
  obtain ⟨hcap, ⟨arr, harr, hlen⟩, hle, hmod, hprocs⟩ := hinv
  by_cases hev : ∀ ash_time r, ev ≠ .sample ash_time r
  · obtain ⟨h1, h2, h3, h4, h5⟩ := step_frame env st st1 ev hev h
    have hz : appends [ev] = 0 := by
      cases ev with
      | sample ash_time r => exact absurd rfl (hev ash_time r)
      | setpid i pid => rfl
      | parse a b c d e => rfl
    refine ⟨by omega, ⟨arr, by rw [h2, harr], hlen⟩, by omega, ?_, by omega⟩
    rw [h3, hz, Nat.add_zero]
    exact hmod
  · have hex : ∃ ash_time r, ev = .sample ash_time r := by
      by_contra hne
      exact hev (fun a r heq => hne ⟨a, r, heq⟩)
    obtain ⟨ash_time, r, rfl⟩ := hex
    have hidx : st.inserted % st.ash_max_entries < arr.length := by
      rw [hlen, hcap]
      exact Nat.mod_lt _ (by omega)
    obtain ⟨pe, _, hst1⟩ := ash_prepare_store_returned env st st1 arr _ ash_time r harr
      (by omega) (List.getElem?_eq_getElem hidx) h
    subst hst1
    subst hcap
    refine ⟨rfl, ⟨_, rfl, by simp [hlen]⟩, ?_, ?_, hprocs⟩
    · have := Nat.mod_lt st.inserted (show 0 < st.ash_max_entries by omega)
      simp only
      omega
    · simp only [appends, Nat.zero_add]
      rw [hmod]
      exact (Nat.mod_add_mod m st.ash_max_entries 1)

theorem run_ring_inv (env : Env) (C : Nat) (hC : 1 ≤ C) (evs : List Event) :
    ∀ (m : Nat) (st st1 : State), ring_inv C m st → run env st evs = .returned st1 →
      ring_inv C (m + appends evs) st1 := by
  induction evs with
  | nil =>
    intro m st st1 hinv h
    simp only [run, Outcome.returned.injEq] at h
    subst h
    simpa [appends] using hinv
  | cons ev evs ih =>
    intro m st st1 hinv h
    simp only [run] at h
    cases hs : step env st ev with
    | undefined => rw [hs] at h; cases h
    | raised st2 err => rw [hs] at h; cases h
    | returned st2 =>
      rw [hs] at h
      have h2 := ih _ st2 st1 (step_ring_inv env C m st st2 ev hC hinv hs) h
      have hcount : m + appends (ev :: evs) = m + appends [ev] + appends evs := by
        cases ev with
        | sample a b => simp only [appends]; omega
        | parse a b c d e => simp [appends]
        | setpid a b => simp [appends]
      rw [hcount]
      exact h2

theorem startup_ring_inv (env : Env) (C : Nat) (allProcs : List PGPROC)
    (hprocs : allProcs.length ≤ get_max_procs_count env) :
    ring_inv C 0 (ash_shmem_startup env C allProcs) := by
  refine ⟨rfl, ⟨_, rfl, by simp⟩, by simp [ash_shmem_startup], by simp [ash_shmem_startup], ?_⟩
  simpa [ash_shmem_startup] using hprocs

theorem step_fill_inv (env : Env) (C m : Nat) (st st1 : State) (ev : Event) (hC : 1 ≤ C)
    (hring : ring_inv C m st) (hfill : fill_inv C m st)
    (hts : nonzero_times [ev] = true) (hm : m + appends [ev] ≤ C)
    (h : step env st ev = .returned st1) :
    fill_inv C (m + appends [ev]) st1 := by
  obtain ⟨hcap, ⟨arr, harr, hlen⟩, hle, hmod, hprocs⟩ := hring
  obtain ⟨hmC, hins, hslots⟩ := hfill
  by_cases hev : ∀ ash_time r, ev ≠ .sample ash_time r
  · obtain ⟨h1, h2, h3, h4, h5⟩ := step_frame env st st1 ev hev h
    have hz : appends [ev] = 0 := by
      cases ev with
      | sample ash_time r => exact absurd rfl (hev ash_time r)
      | setpid i pid => rfl
      | parse a b c d e => rfl
    rw [hz, Nat.add_zero]
    refine ⟨hmC, by omega, ?_⟩
    intro arr1 harr1
    rw [h2] at harr1
    exact hslots arr1 harr1
  · have hex : ∃ ash_time r, ev = .sample ash_time r := by
      by_contra hne
      exact hev (fun a r heq => hne ⟨a, r, heq⟩)
    obtain ⟨ash_time, r, rfl⟩ := hex
    have hm1 : m < C := by simp [appends] at hm; omega
    have hidxeq : st.inserted % st.ash_max_entries = m := by
      rw [hins, hcap]; exact Nat.mod_eq_of_lt hm1
    have hidx : st.inserted % st.ash_max_entries < arr.length := by omega
    have htime : ash_time ≠ 0 := by
      simpa [nonzero_times] using hts
    obtain ⟨pe, _, hst1⟩ := ash_prepare_store_returned env st st1 arr _ ash_time r harr
      (by omega) (List.getElem?_eq_getElem hidx) h
    subst hst1
    have happ : m + appends [Event.sample ash_time r] = m + 1 := by simp [appends]
    rw [happ]
    refine ⟨by omega, by simp only; omega, ?_⟩
    intro arr1 harr1 j e hje
    simp only [Option.some.injEq] at harr1
    subst harr1
    rw [List.getElem?_set] at hje
    by_cases hjm : st.inserted % st.ash_max_entries = j
    · rw [if_pos hjm, if_pos hidx] at hje
      simp only [Option.some.injEq] at hje
      subst hje
      exact ⟨fun _ => htime, fun hcontra => absurd hcontra (by omega)⟩
    · rw [if_neg hjm] at hje
      obtain ⟨ha, hb⟩ := hslots arr harr j e hje
      exact ⟨fun hlt => ha (by omega), fun hge => hb (by omega)⟩

theorem run_fill_inv (env : Env) (C : Nat) (hC : 1 ≤ C) (evs : List Event) :
    ∀ (m : Nat) (st st1 : State), ring_inv C m st → fill_inv C m st →
      nonzero_times evs = true → m + appends evs ≤ C → run env st evs = .returned st1 →
      fill_inv C (m + appends evs) st1 := by
  induction evs with
  | nil =>
    intro m st st1 _ hfill _ _ h
    simp only [run, Outcome.returned.injEq] at h
    subst h
    simpa [appends] using hfill
  | cons ev evs ih =>
    intro m st st1 hring hfill hts hm h
    simp only [run] at h
    have hcount : m + appends (ev :: evs) = m + appends [ev] + appends evs := by
      cases ev with
      | sample a b => simp only [appends]; omega
      | parse a b c d e => simp [appends]
      | setpid a b => simp [appends]
    have hts1 : nonzero_times [ev] = true ∧ nonzero_times evs = true := by
      cases ev with
      | sample a b => simpa [nonzero_times] using hts
      | parse a b c d e => simpa [nonzero_times] using hts
      | setpid a b => simpa [nonzero_times] using hts
    cases hs : step env st ev with
    | undefined => rw [hs] at h; cases h
    | raised st2 err => rw [hs] at h; cases h
    | returned st2 =>
      rw [hs] at h
      rw [hcount] at hm ⊢
      exact ih _ st2 st1 (step_ring_inv env C m st st2 ev hC hring hs)
        (step_fill_inv env C m st st2 ev hC hring hfill hts1.1 (by omega) hs)
        hts1.2 hm h

theorem startup_fill_inv (env : Env) (C : Nat) (allProcs : List PGPROC) :
    fill_inv C 0 (ash_shmem_startup env C allProcs) := by
  refine ⟨Nat.zero_le _, rfl, ?_⟩
  intro arr harr j e hje
  simp only [ash_shmem_startup, Option.some.injEq] at harr
  subst harr
  rw [List.getElem?_replicate] at hje
  split at hje
  · simp only [Option.some.injEq] at hje
    subst hje
    exact ⟨fun h => absurd h (by omega), fun _ => rfl⟩
  · cases hje

/-! ## The claims -/

/-- C1: on an initialised ring of capacity `C ≥ 1` with cursor `c`, `ash_prepare_store`
ends (by returning or by raising the search error) in a state whose cursor is
`(c mod C) + 1`; the slot it writes has index `c mod C`, which is below `C`: that slot
then holds the pid of the record (and the capture time when the call returns) and every
other slot is as before; the new cursor lies in `[1, C]`. -/
theorem ash_prepare_store_cursor (env : Env) (st : State) (arr : List ashEntry)
    (ash_time : Int) (r : ActivityRecord)
    (harr : st.AshEntryArray = some arr) (hlen : arr.length = st.ash_max_entries)
    (hC : 1 ≤ st.ash_max_entries)
    (hprocs : st.allProcs.length ≤ st.ProcEntryArray.length) :
    ∃ st1 arr1 e1,
      (ash_prepare_store env st ash_time r = .returned st1 ∧ e1.ash_time = ash_time ∨
        ∃ err, ash_prepare_store env st ash_time r = .raised st1 err) ∧
      st1.inserted = st.inserted % st.ash_max_entries + 1 ∧
      st.inserted % st.ash_max_entries < st.ash_max_entries ∧
      1 ≤ st1.inserted ∧ st1.inserted ≤ st.ash_max_entries ∧
      st1.ash_max_entries = st.ash_max_entries ∧
      st1.AshEntryArray = some arr1 ∧ arr1.length = arr.length ∧
      arr1[st.inserted % st.ash_max_entries]? = some e1 ∧ e1.pid = r.pid ∧
      ∀ j, j ≠ st.inserted % st.ash_max_entries → arr1[j]? = arr[j]? :=
  ash_prepare_store_effect env st arr ash_time r harr hlen hC hprocs

theorem ash_prepare_store_cursor_witness :
    ∃ st1 arr1 e1,
      (ash_prepare_store example_env example_state 7 (example_record 100 select_1)
          = .returned st1 ∧ e1.ash_time = 7 ∨
        ∃ err, ash_prepare_store example_env example_state 7 (example_record 100 select_1)
          = .raised st1 err) ∧
      st1.inserted = example_state.inserted % example_state.ash_max_entries + 1 ∧
      example_state.inserted % example_state.ash_max_entries < example_state.ash_max_entries ∧
      1 ≤ st1.inserted ∧ st1.inserted ≤ example_state.ash_max_entries ∧
      st1.ash_max_entries = example_state.ash_max_entries ∧
      st1.AshEntryArray = some arr1 ∧
      arr1.length = (List.replicate 3 (zero_ashEntry example_env)).length ∧
      arr1[example_state.inserted % example_state.ash_max_entries]? = some e1 ∧
      e1.pid = (example_record 100 select_1).pid ∧
      ∀ j, j ≠ example_state.inserted % example_state.ash_max_entries →
        arr1[j]? = (List.replicate 3 (zero_ashEntry example_env))[j]? :=
  ash_prepare_store_cursor example_env example_state
    (List.replicate 3 (zero_ashEntry example_env)) 7 (example_record 100 select_1)
    rfl (by decide) (by decide) (by decide)

/-- C2: FIFO by slot.  In a run from the freshly initialised ring of capacity `C ≥ 1`,
after `n - 1` appends (each having returned, with parse events and pid changes in
between), the `n`-th append writes slot `(n - 1) mod C`: that slot then holds the pid of
the record and every other slot is as before.  So the `(C + 1)`-th append writes slot `0`,
the slot written first, and no other. -/
theorem nth_append_slot (env : Env) (C : Nat) (allProcs : List PGPROC) (evs : List Event)
    (st : State) (ash_time : Int) (r : ActivityRecord)
    (hC : 1 ≤ C) (hprocs : allProcs.length ≤ get_max_procs_count env)
    (hrun : run env (ash_shmem_startup env C allProcs) evs = .returned st) :
    ∃ arr st1 arr1 e1,
      st.AshEntryArray = some arr ∧ arr.length = C ∧
      (ash_prepare_store env st ash_time r = .returned st1 ∨
        ∃ err, ash_prepare_store env st ash_time r = .raised st1 err) ∧
      st1.AshEntryArray = some arr1 ∧ arr1.length = C ∧
      arr1[appends evs % C]? = some e1 ∧ e1.pid = r.pid ∧
      (∀ j, j ≠ appends evs % C → arr1[j]? = arr[j]?) ∧
      (appends evs = 0 ∨ appends evs = C →
        arr1[0]? = some e1 ∧ ∀ j, j ≠ 0 → arr1[j]? = arr[j]?) := by
  have hinv := run_ring_inv env C hC evs 0 _ st (startup_ring_inv env C allProcs hprocs) hrun
  rw [Nat.zero_add] at hinv
  obtain ⟨hcap, ⟨arr, harr, hlen⟩, hle, hmod, hpr⟩ := hinv
  obtain ⟨st1, arr1, e1, hout, _, _, _, _, _, harr1, hlen1, hget, hpid, hframe⟩ :=
    ash_prepare_store_effect env st arr ash_time r harr (by omega) (by omega) hpr
  rw [hcap, hmod] at hget hframe
  refine ⟨arr, st1, arr1, e1, harr, hlen, ?_, harr1, by omega, hget, hpid, hframe, ?_⟩
  · rcases hout with ⟨h, _⟩ | h
    · exact Or.inl h
    · exact Or.inr h
  · intro h0
    have hz : appends evs % C = 0 := by
      rcases h0 with h | h
      · rw [h]; exact Nat.zero_mod _
      · rw [h]; exact Nat.mod_self _
    rw [hz] at hget hframe
    exact ⟨hget, hframe⟩

theorem nth_append_slot_witness :
    ∃ arr st1 arr1 e1,
      full_state.AshEntryArray = some arr ∧ arr.length = 3 ∧
      (ash_prepare_store example_env full_state 10 (example_record 200 select_2)
          = .returned st1 ∨
        ∃ err, ash_prepare_store example_env full_state 10 (example_record 200 select_2)
          = .raised st1 err) ∧
      st1.AshEntryArray = some arr1 ∧ arr1.length = 3 ∧
      arr1[appends three_appends % 3]? = some e1 ∧
      e1.pid = (example_record 200 select_2).pid ∧
      (∀ j, j ≠ appends three_appends % 3 → arr1[j]? = arr[j]?) ∧
      (appends three_appends = 0 ∨ appends three_appends = 3 →
        arr1[0]? = some e1 ∧ ∀ j, j ≠ 0 → arr1[j]? = arr[j]?) :=
  nth_append_slot example_env 3 example_procs three_appends full_state 10
    (example_record 200 select_2) (by decide) (by decide) rfl

/-- C3, as stated, fails: after exactly one append to the freshly initialised ring of
capacity 3, an append whose capture time is zero, the set-returning function returns no
row instead of one. -/
theorem snapshot_misses_append_at_time_zero :
    ∃ st rows,
      run example_env (ash_shmem_startup example_env 3 example_procs) append_at_time_zero
        = .returned st ∧
      appends append_at_time_zero = 1 ∧
      pg_active_session_history_internal st materialize_call = .ok rows ∧
      rows.length ≠ appends append_at_time_zero :=
  ⟨(run example_env example_state append_at_time_zero).state_or example_state, [],
    rfl, rfl, rfl, by decide⟩

/-- C3 (amended): for every capacity `C ≥ 1` and every `k ≤ C`, after exactly `k` appends
to a freshly initialised ring, each with a capture time other than zero, the
set-returning function returns exactly `k` rows, those of slots `0..k-1`, none of them
an unwritten slot. -/
theorem snapshot_after_appends (env : Env) (C : Nat) (allProcs : List PGPROC)
    (evs : List Event) (st : State)
    (hC : 1 ≤ C) (hprocs : allProcs.length ≤ get_max_procs_count env)
    (hts : nonzero_times evs = true) (hk : appends evs ≤ C)
    (hrun : run env (ash_shmem_startup env C allProcs) evs = .returned st) :
    ∃ arr, st.AshEntryArray = some arr ∧ arr.length = C ∧
      pg_active_session_history_internal st materialize_call
        = .ok ((arr.take (appends evs)).map row_of_entry) ∧
      ((arr.take (appends evs)).map row_of_entry).length = appends evs ∧
      ∀ e ∈ arr.take (appends evs), e.ash_time ≠ 0 := by
  have hring := run_ring_inv env C hC evs 0 _ st (startup_ring_inv env C allProcs hprocs) hrun
  have hfill := run_fill_inv env C hC evs 0 _ st (startup_ring_inv env C allProcs hprocs)
    (startup_fill_inv env C allProcs) hts (by omega) hrun
  rw [Nat.zero_add] at hring hfill
  obtain ⟨hcap, ⟨arr, harr, hlen⟩, _, _, _⟩ := hring
  obtain ⟨_, _, hslots⟩ := hfill
  refine ⟨arr, harr, hlen, ?_, ?_, ?_⟩
  · apply history_spec st arr (appends evs) harr (by omega) (by omega)
    · intro j e hj hje
      exact (hslots arr harr j e hje).1 hj
    · intro hlt
      refine ⟨arr[appends evs], List.getElem?_eq_getElem hlt, ?_⟩
      exact (hslots arr harr _ _ (List.getElem?_eq_getElem hlt)).2 (le_refl _)
  · simp only [List.length_map, List.length_take]
    omega
  · intro e he
    obtain ⟨j, hj⟩ := List.mem_iff_getElem?.mp he
    rw [List.getElem?_take] at hj
    split at hj
    · rename_i hlt
      exact (hslots arr harr j e hj).1 hlt
    · cases hj

theorem snapshot_after_appends_witness :
    ∃ arr, two_ticks_state.AshEntryArray = some arr ∧ arr.length = 3 ∧
      pg_active_session_history_internal two_ticks_state materialize_call
        = .ok ((arr.take (appends two_ticks)).map row_of_entry) ∧
      ((arr.take (appends two_ticks)).map row_of_entry).length = appends two_ticks ∧
      ∀ e ∈ arr.take (appends two_ticks), e.ash_time ≠ 0 :=
  snapshot_after_appends example_env 3 example_procs two_ticks two_ticks_state
    (by decide) (by decide) rfl (by decide) rfl

/-- C4: on an attached ring whose declared capacity is its size `C`, the set-returning
function returns one row per slot for slots `0, 1, ..., k-1`, in this order, where `k`
is the least index whose capture time is zero, or `C` when there is none; the slots from
`k` on contribute nothing, whatever they contain. -/
theorem snapshot_stops_at_first_zero (st : State) (arr : List ashEntry) (k : Nat)
    (harr : st.AshEntryArray = some arr) (hlen : arr.length = st.ash_max_entries)
    (hk : k ≤ arr.length)
    (hnz : ∀ j e, j < k → arr[j]? = some e → e.ash_time ≠ 0)
    (hz : k < arr.length → ∃ e, arr[k]? = some e ∧ e.ash_time = 0) :
    pg_active_session_history_internal st materialize_call
        = .ok ((arr.take k).map row_of_entry) ∧
      ((arr.take k).map row_of_entry).length = k := by
  refine ⟨history_spec st arr k harr hlen hk hnz hz, ?_⟩
  simp only [List.length_map, List.length_take]
  omega

theorem snapshot_stops_at_first_zero_witness :
    pg_active_session_history_internal two_ticks_state materialize_call
        = .ok ((two_ticks_ring.take 2).map row_of_entry) ∧
      ((two_ticks_ring.take 2).map row_of_entry).length = 2 :=
  snapshot_stops_at_first_zero two_ticks_state two_ticks_ring 2 rfl rfl (by decide)
    (fun j e hj hje => by
      have h0 : (two_ticks_ring[0]?).map ashEntry.ash_time = some 7 := rfl
      have h1 : (two_ticks_ring[1]?).map ashEntry.ash_time = some 9 := rfl
      match j, hj, hje with
      | 0, _, hje => rw [hje] at h0; simp at h0; omega
      | 1, _, hje => rw [hje] at h1; simp at h1; omega)
    (fun _ => ⟨zero_ashEntry example_env, rfl, rfl⟩)

/-- C5 at a failing input: backend 100 parses `SELECT 1` (identity 42), then a statement
made of one space, stored with length 0, and is sampled.  The search returns an entry
whose stored text, its first `qlen` bytes, is empty; the copy length of line 634 is 1,
and the ring slot written carries the identity 42 but the text `S`, the byte left at
the start of the entry's buffer. -/
theorem resolved_text_of_empty_statement :
    run example_env example_state stale_events = .returned stale_state ∧
    (search_procentry stale_state 100).ok?.map
        (fun found => (found.queryid, found.qlen, found.query.take found.qlen))
      = some (42, 0, []) ∧
    (search_procentry stale_state 100).ok?.map (resolved_len example_env) = some 1 ∧
    ((stale_state.AshEntryArray.getD [])[0]?).map
        (fun e => (e.pid, e.queryid, cstring e.query))
      = some (100, 42, [83]) :=
  ⟨rfl, rfl, rfl, rfl⟩

/-- C6: when the query table covers the process array, `search_procentry(p)` raises the
error `backend with pid=p not found` if and only if no process slot holds a live backend
(pid other than zero) whose pid is `p`; otherwise it returns the query-table entry of the
smallest such slot.  In particular the search of pid 0 always fails. -/
theorem search_procentry_spec (st : State) (p : Int)
    (hprocs : st.allProcs.length ≤ st.ProcEntryArray.length) :
    (search_procentry st p = .error ⟨.ERRCODE_INTERNAL_ERROR, .backend_with_pid_not_found p⟩
      ↔ ¬ ∃ (i : Nat) (proc : PGPROC),
          st.allProcs[i]? = some proc ∧ proc.pid ≠ 0 ∧ proc.pid = p) ∧
    (∀ (i : Nat) (proc : PGPROC), st.allProcs[i]? = some proc → proc.pid ≠ 0 → proc.pid = p →
      (∀ (j : Nat) (q : PGPROC), j < i → st.allProcs[j]? = some q →
        ¬(q.pid ≠ 0 ∧ q.pid = p)) →
      ∃ entry, st.ProcEntryArray[i]? = some entry ∧ search_procentry st p = .ok entry) ∧
    search_procentry st 0
      = .error ⟨.ERRCODE_INTERNAL_ERROR, .backend_with_pid_not_found 0⟩ := by
  have hok : ∀ (i : Nat) (proc : PGPROC), st.allProcs[i]? = some proc → proc.pid ≠ 0 →
      proc.pid = p →
      (∀ (j : Nat) (q : PGPROC), j < i → st.allProcs[j]? = some q →
        ¬(q.pid ≠ 0 ∧ q.pid = p)) →
      ∃ entry, st.ProcEntryArray[i]? = some entry ∧ search_procentry st p = .ok entry := by
    intro i proc hi h0 hp hfirst
    have hilen : i < st.allProcs.length := by
      by_contra hcon
      rw [List.getElem?_eq_none (by omega)] at hi
      cases hi
    have hientry : i < st.ProcEntryArray.length := by omega
    exact ⟨st.ProcEntryArray[i], List.getElem?_eq_getElem hientry,
      search_procentry_found st p i proc _ hi ⟨h0, hp⟩ (List.getElem?_eq_getElem hientry) hfirst⟩
  refine ⟨⟨?_, ?_⟩, hok, ?_⟩
  · intro herr hex
    classical
    have hex2 : ∃ i : Nat, ∃ proc : PGPROC,
        st.allProcs[i]? = some proc ∧ proc.pid ≠ 0 ∧ proc.pid = p := hex
    obtain ⟨proc, hi, h0, hp⟩ := Nat.find_spec hex2
    have hmin : ∀ (j : Nat) (q : PGPROC), j < Nat.find hex2 → st.allProcs[j]? = some q →
        ¬(q.pid ≠ 0 ∧ q.pid = p) := by
      intro j q hj hjq hq
      exact Nat.find_min hex2 hj ⟨q, hjq, hq.1, hq.2⟩
    obtain ⟨entry, _, hfound⟩ := hok _ proc hi h0 hp hmin
    rw [hfound] at herr
    cases herr
  · intro hno
    exact search_procentry_not_found st p
      (fun j proc hj hq => hno ⟨j, proc, hj, hq.1, hq.2⟩)
  · exact search_procentry_not_found st 0 (fun j proc _ hq => hq.1 hq.2)

theorem search_procentry_spec_witness :
    (search_procentry example_state 200
        = .error ⟨.ERRCODE_INTERNAL_ERROR, .backend_with_pid_not_found 200⟩
      ↔ ¬ ∃ (i : Nat) (proc : PGPROC),
          example_state.allProcs[i]? = some proc ∧ proc.pid ≠ 0 ∧ proc.pid = 200) ∧
    (∀ (i : Nat) (proc : PGPROC), example_state.allProcs[i]? = some proc → proc.pid ≠ 0 →
      proc.pid = 200 →
      (∀ (j : Nat) (q : PGPROC), j < i → example_state.allProcs[j]? = some q →
        ¬(q.pid ≠ 0 ∧ q.pid = 200)) →
      ∃ entry, example_state.ProcEntryArray[i]? = some entry ∧
        search_procentry example_state 200 = .ok entry) ∧
    search_procentry example_state 0
      = .error ⟨.ERRCODE_INTERNAL_ERROR, .backend_with_pid_not_found 0⟩ :=
  search_procentry_spec example_state 200 (by decide)

/-- C7: let process slot `i` hold a live backend with pid `p`, no lower slot holding `p`.
After the parse hook runs on slot `i` with a parser identity `q` other than zero, the
search of `p` returns an entry whose identity is `q`, whose length is that of the trimmed
statement cut at `max - 1` and whose first `qlen` bytes are the statement after
lexer-whitespace trimming and truncation to `max - 1` bytes, whatever the table held
before. -/
theorem record_then_lookup (env : Env) (st : State) (i : Nat) (p : Int) (entry : procEntry)
    (p_sourcetext : List Nat) (stmt_location stmt_len : Int) (q : Nat)
    (hproc : st.allProcs[i]? = some ⟨p⟩) (hp : p ≠ 0)
    (hfirst : ∀ (j : Nat) (proc : PGPROC), j < i → st.allProcs[j]? = some proc →
      proc.pid ≠ p)
    (hentry : st.ProcEntryArray[i]? = some entry) (hq : q ≠ 0)
    (hin : statement_inside p_sourcetext stmt_location stmt_len) :
    ∃ st1 found,
      ash_post_parse_analyze env st (some i) p_sourcetext stmt_location stmt_len q
        = .returned st1 ∧
      search_procentry st1 p = .ok found ∧
      found.queryid = q ∧
      found.qlen = min (lexer_trim (statement_text p_sourcetext stmt_location stmt_len)).length
        (env.pgstat_track_activity_query_size - 1) ∧
      found.query.take found.qlen
        = (lexer_trim (statement_text p_sourcetext stmt_location stmt_len)).take
            (env.pgstat_track_activity_query_size - 1) := by
  have hilen : i < st.ProcEntryArray.length := by
    by_contra hcon
    rw [List.getElem?_eq_none (by omega)] at hentry
    cases hentry
  refine ⟨_, _, ash_post_parse_analyze_eq env st i entry _ _ _ q hentry hin, ?_, ?_, rfl,
    (recorded_query env entry _ q).1⟩
  · refine search_procentry_found _ p i ⟨p⟩ _ ?_ ⟨hp, rfl⟩ ?_ ?_
    · exact hproc
    · exact List.getElem?_set_self hilen
    · intro j proc hj hjp hcon
      exact hfirst j proc hj hjp hcon.2
  · simp [recorded, hq]

theorem record_then_lookup_witness :
    ∃ st1 found,
      ash_post_parse_analyze example_env example_state (some 0)
          ([32] ++ select_1 ++ [10]) (-1) 0 42
        = .returned st1 ∧
      search_procentry st1 100 = .ok found ∧
      found.queryid = 42 ∧
      found.qlen = min (lexer_trim (statement_text ([32] ++ select_1 ++ [10]) (-1) 0)).length
        (example_env.pgstat_track_activity_query_size - 1) ∧
      found.query.take found.qlen
        = (lexer_trim (statement_text ([32] ++ select_1 ++ [10]) (-1) 0)).take
            (example_env.pgstat_track_activity_query_size - 1) :=
  record_then_lookup example_env example_state 0 100 (zero_procEntry example_env)
    ([32] ++ select_1 ++ [10]) (-1) 0 42 rfl (by decide)
    (fun j _ hj => absurd hj (Nat.not_lt_zero j)) rfl (by decide)
    (fun h => absurd h (by decide))

/-- C8: the identity stored by the parse hook is the parser identity `q` when `q` is not
zero, and the seed-0 hash of the trimmed statement bytes when `q` is zero; hence another
parse event with zero parser identity and the same trimmed text, on any slot of any
state, stores the same identity. -/
theorem record_identity (env : Env) (st : State) (i : Nat) (entry : procEntry)
    (p_sourcetext : List Nat) (stmt_location stmt_len : Int) (q : Nat)
    (hentry : st.ProcEntryArray[i]? = some entry)
    (hin : statement_inside p_sourcetext stmt_location stmt_len) :
    ∃ st1 stored,
      ash_post_parse_analyze env st (some i) p_sourcetext stmt_location stmt_len q
        = .returned st1 ∧
      st1.ProcEntryArray[i]? = some stored ∧
      (q ≠ 0 → stored.queryid = q) ∧
      (q = 0 → stored.queryid = env.hash_any_extended
        (lexer_trim (statement_text p_sourcetext stmt_location stmt_len)) 0) ∧
      ∀ (st2 : State) (i2 : Nat) (entry2 : procEntry) (src2 : List Nat) (loc2 len2 : Int),
        st2.ProcEntryArray[i2]? = some entry2 → statement_inside src2 loc2 len2 → q = 0 →
        lexer_trim (statement_text src2 loc2 len2)
          = lexer_trim (statement_text p_sourcetext stmt_location stmt_len) →
        ∃ st3 stored2,
          ash_post_parse_analyze env st2 (some i2) src2 loc2 len2 0 = .returned st3 ∧
          st3.ProcEntryArray[i2]? = some stored2 ∧ stored2.queryid = stored.queryid := by
  have hlen : ∀ (s : State) (k : Nat) (en : procEntry), s.ProcEntryArray[k]? = some en →
      k < s.ProcEntryArray.length := by
    intro s k en h
    by_contra hcon
    rw [List.getElem?_eq_none (by omega)] at h
    cases h
  refine ⟨_, _, ash_post_parse_analyze_eq env st i entry _ _ _ q hentry hin,
    List.getElem?_set_self (hlen st i entry hentry), ?_, ?_, ?_⟩
  · intro hq
    simp [recorded, hq]
  · intro hq
    simp [recorded, hq]
  · intro st2 i2 entry2 src2 loc2 len2 hentry2 hin2 hq htrim
    refine ⟨_, _, ash_post_parse_analyze_eq env st2 i2 entry2 _ _ _ 0 hentry2 hin2,
      List.getElem?_set_self (hlen st2 i2 entry2 hentry2), ?_⟩
    simp [recorded, hq, htrim]

theorem record_identity_witness :
    ∃ st1 stored,
      ash_post_parse_analyze example_env example_state (some 2) select_1 0 8 0
        = .returned st1 ∧
      st1.ProcEntryArray[2]? = some stored ∧
      ((0 : Nat) ≠ 0 → stored.queryid = 0) ∧
      ((0 : Nat) = 0 → stored.queryid = example_env.hash_any_extended
        (lexer_trim (statement_text select_1 0 8)) 0) ∧
      ∀ (st2 : State) (i2 : Nat) (entry2 : procEntry) (src2 : List Nat) (loc2 len2 : Int),
        st2.ProcEntryArray[i2]? = some entry2 → statement_inside src2 loc2 len2 →
        (0 : Nat) = 0 →
        lexer_trim (statement_text src2 loc2 len2)
          = lexer_trim (statement_text select_1 0 8) →
        ∃ st3 stored2,
          ash_post_parse_analyze example_env st2 (some i2) src2 loc2 len2 0 = .returned st3 ∧
          st3.ProcEntryArray[i2]? = some stored2 ∧ stored2.queryid = stored.queryid :=
  record_identity example_env example_state 2 (zero_procEntry example_env) select_1 0 8 0
    rfl (fun _ _ => by decide)

/-- C9: for every statement text `s` and lexer-whitespace strings `w1`, `w2`, the parse
hook run on the statement `w1 ++ s ++ w2` ends in the same state, so stores the same
text, length and identity, as the hook run on the trimmed form of `s`; and trimming a
trimmed text leaves it unchanged. -/
theorem record_trim_equivalent (env : Env) (st : State) (MyProc : Option Nat)
    (s w1 w2 src1 src2 : List Nat) (loc1 len1 loc2 len2 : Int) (q : Nat)
    (hw1 : ∀ b ∈ w1, scanner_isspace b = true) (hw2 : ∀ b ∈ w2, scanner_isspace b = true)
    (hin1 : statement_inside src1 loc1 len1)
    (hstmt1 : statement_text src1 loc1 len1 = w1 ++ s ++ w2)
    (hin2 : statement_inside src2 loc2 len2)
    (hstmt2 : statement_text src2 loc2 len2 = lexer_trim s) :
    ash_post_parse_analyze env st MyProc src1 loc1 len1 q
      = ash_post_parse_analyze env st MyProc src2 loc2 len2 q ∧
    lexer_trim (lexer_trim s) = lexer_trim s := by
  refine ⟨?_, lexer_trim_idem s⟩
  apply ash_post_parse_analyze_congr env st MyProc _ _ _ _ _ _ q hin1 hin2
  rw [hstmt1, hstmt2, lexer_trim_append s w1 w2 hw1 hw2, lexer_trim_idem]

theorem record_trim_equivalent_witness :
    ash_post_parse_analyze example_env example_state (some 0)
        ([32, 10] ++ select_1 ++ [9]) (-1) 0 0
      = ash_post_parse_analyze example_env example_state (some 0) (lexer_trim select_1) 0 0 0 ∧
    lexer_trim (lexer_trim select_1) = lexer_trim select_1 :=
  record_trim_equivalent example_env example_state (some 0) select_1 [32, 10] [9]
    ([32, 10] ++ select_1 ++ [9]) (lexer_trim select_1) (-1) 0 0 0 0
    (by decide) (by decide) (fun h => absurd h (by decide)) rfl
    (fun _ h => absurd h (by decide)) rfl

/-- C10: let the statement-text size `max` be at least 2 (the host enforces 100), the
buffers have that size, and the trimmed statement have more than `max - 1` bytes.  The
parse hook stores its first `max - 1` bytes with length `max - 1` and leaves the buffer
as it was from index `max - 1` on, its size unchanged.  An append for that backend then
returns, and the slot it writes holds those `max - 1` bytes followed by a terminator at
index `max - 1`, the last index of a buffer whose size is still `max`; no other slot
changes. -/
theorem long_statement_truncated (env : Env) (st : State) (i : Nat) (entry : procEntry)
    (p_sourcetext : List Nat) (stmt_location stmt_len : Int) (q : Nat)
    (arr : List ashEntry) (ash_time : Int) (r : ActivityRecord)
    (hmax : 2 ≤ env.pgstat_track_activity_query_size)
    (hproc : st.allProcs[i]? = some ⟨r.pid⟩) (hp : r.pid ≠ 0)
    (hfirst : ∀ (j : Nat) (proc : PGPROC), j < i → st.allProcs[j]? = some proc →
      proc.pid ≠ r.pid)
    (hentry : st.ProcEntryArray[i]? = some entry)
    (hbuf : entry.query.length = env.pgstat_track_activity_query_size)
    (hin : statement_inside p_sourcetext stmt_location stmt_len)
    (hlong : env.pgstat_track_activity_query_size - 1
      < (lexer_trim (statement_text p_sourcetext stmt_location stmt_len)).length)
    (harr : st.AshEntryArray = some arr) (hlen : arr.length = st.ash_max_entries)
    (hC : 1 ≤ st.ash_max_entries)
    (hslots : ∀ e ∈ arr, e.query.length = env.pgstat_track_activity_query_size) :
    ∃ st1 stored st2 arr2 e2,
      ash_post_parse_analyze env st (some i) p_sourcetext stmt_location stmt_len q
        = .returned st1 ∧
      st1.ProcEntryArray[i]? = some stored ∧
      stored.qlen = env.pgstat_track_activity_query_size - 1 ∧
      stored.query.take (env.pgstat_track_activity_query_size - 1)
        = (lexer_trim (statement_text p_sourcetext stmt_location stmt_len)).take
            (env.pgstat_track_activity_query_size - 1) ∧
      stored.query.drop (env.pgstat_track_activity_query_size - 1)
        = entry.query.drop (env.pgstat_track_activity_query_size - 1) ∧
      stored.query.length = env.pgstat_track_activity_query_size ∧
      ash_prepare_store env st1 ash_time r = .returned st2 ∧
      st2.AshEntryArray = some arr2 ∧
      arr2[st.inserted % st.ash_max_entries]? = some e2 ∧
      resolved_len env stored = env.pgstat_track_activity_query_size - 1 ∧
      e2.query.take (env.pgstat_track_activity_query_size - 1)
        = (lexer_trim (statement_text p_sourcetext stmt_location stmt_len)).take
            (env.pgstat_track_activity_query_size - 1) ∧
      e2.query[env.pgstat_track_activity_query_size - 1]? = some 0 ∧
      e2.query.length = env.pgstat_track_activity_query_size ∧
      ∀ j, j ≠ st.inserted % st.ash_max_entries → arr2[j]? = arr[j]? := by
  have hilen : i < st.ProcEntryArray.length := by
    by_contra hcon
    rw [List.getElem?_eq_none (by omega)] at hentry
    cases hentry
  have hidx : st.inserted % st.ash_max_entries < arr.length := by
    rw [hlen]; exact Nat.mod_lt _ (by omega)
  -- the entry stored by the hook
  have hparse := ash_post_parse_analyze_eq env st i entry p_sourcetext stmt_location
    stmt_len q hentry hin
  obtain ⟨htake, hdrop⟩ := recorded_query env entry
    (lexer_trim (statement_text p_sourcetext stmt_location stmt_len)) q
  have hqlen : (recorded env entry
      (lexer_trim (statement_text p_sourcetext stmt_location stmt_len)) q).qlen
      = env.pgstat_track_activity_query_size - 1 := by
    simp only [recorded]; omega
  rw [hqlen] at htake hdrop
  have hslen : (recorded env entry
      (lexer_trim (statement_text p_sourcetext stmt_location stmt_len)) q).query.length
      = env.pgstat_track_activity_query_size := by
    have h1 := congrArg List.length htake
    have h2 := congrArg List.length hdrop
    simp only [List.length_take, List.length_drop] at h1 h2
    omega
  -- the search on the state left by the hook
  have hsearch : search_procentry
      { st with ProcEntryArray := st.ProcEntryArray.set i (recorded env entry
          (lexer_trim (statement_text p_sourcetext stmt_location stmt_len)) q) } r.pid
      = .ok (recorded env entry
          (lexer_trim (statement_text p_sourcetext stmt_location stmt_len)) q) := by
    refine search_procentry_found _ r.pid i ⟨r.pid⟩ _ ?_ ⟨hp, rfl⟩ ?_ ?_
    · exact hproc
    · exact List.getElem?_set_self hilen
    · intro j proc hj hjp hcon
      exact hfirst j proc hj hjp hcon.2
  -- the append
  have happend := ash_prepare_store_eq env
    { st with ProcEntryArray := st.ProcEntryArray.set i (recorded env entry
        (lexer_trim (statement_text p_sourcetext stmt_location stmt_len)) q) }
    arr arr[st.inserted % st.ash_max_entries] ash_time r harr (by simp only; omega)
    (List.getElem?_eq_getElem hidx)
  rw [hsearch] at happend
  have hrl : resolved_len env (recorded env entry
      (lexer_trim (statement_text p_sourcetext stmt_location stmt_len)) q)
      = env.pgstat_track_activity_query_size - 1 := by
    unfold resolved_len
    rw [hqlen]
    omega
  have hslot : (store_activity env arr[st.inserted % st.ash_max_entries] r).query.length
      = env.pgstat_track_activity_query_size := by
    show arr[st.inserted % st.ash_max_entries].query.length = _
    exact hslots _ (List.getElem_mem _)
  obtain ⟨hr1, hr2, hr3⟩ := store_resolved_query env
    (store_activity env arr[st.inserted % st.ash_max_entries] r)
    (recorded env entry (lexer_trim (statement_text p_sourcetext stmt_location stmt_len)) q)
    ash_time (by rw [hrl, hslen]; omega) (by rw [hrl, hslot]; omega)
  rw [hrl] at hr1 hr2
  refine ⟨_, _, _, _, _, hparse, List.getElem?_set_self hilen, hqlen, htake, hdrop, hslen,
    happend, rfl, ?_, hrl, ?_, hr2, ?_, ?_⟩
  · exact List.getElem?_set_self hidx
  · rw [hr1, htake]
  · rw [hr3, hslot]
  · intro j hj
    simp only
    rw [List.getElem?_set, if_neg (Ne.symm hj)]

set_option maxRecDepth 20000 in
theorem long_statement_truncated_witness :
    ∃ st1 stored st2 arr2 e2,
      ash_post_parse_analyze example_env example_state (some 0) long_statement (-1) 0 42
        = .returned st1 ∧
      st1.ProcEntryArray[0]? = some stored ∧
      stored.qlen = example_env.pgstat_track_activity_query_size - 1 ∧
      stored.query.take (example_env.pgstat_track_activity_query_size - 1)
        = (lexer_trim (statement_text long_statement (-1) 0)).take
            (example_env.pgstat_track_activity_query_size - 1) ∧
      stored.query.drop (example_env.pgstat_track_activity_query_size - 1)
        = (zero_procEntry example_env).query.drop
            (example_env.pgstat_track_activity_query_size - 1) ∧
      stored.query.length = example_env.pgstat_track_activity_query_size ∧
      ash_prepare_store example_env st1 7 (example_record 100 long_statement)
        = .returned st2 ∧
      st2.AshEntryArray = some arr2 ∧
      arr2[example_state.inserted % example_state.ash_max_entries]? = some e2 ∧
      resolved_len example_env stored = example_env.pgstat_track_activity_query_size - 1 ∧
      e2.query.take (example_env.pgstat_track_activity_query_size - 1)
        = (lexer_trim (statement_text long_statement (-1) 0)).take
            (example_env.pgstat_track_activity_query_size - 1) ∧
      e2.query[example_env.pgstat_track_activity_query_size - 1]? = some 0 ∧
      e2.query.length = example_env.pgstat_track_activity_query_size ∧
      ∀ j, j ≠ example_state.inserted % example_state.ash_max_entries →
        arr2[j]? = (List.replicate 3 (zero_ashEntry example_env))[j]? :=
  long_statement_truncated example_env example_state 0 (zero_procEntry example_env)
    long_statement (-1) 0 42 (List.replicate 3 (zero_ashEntry example_env)) 7
    (example_record 100 long_statement)
    (by decide) rfl (by decide) (fun j _ hj => absurd hj (Nat.not_lt_zero j)) rfl rfl
    (fun h => absurd h (by decide))
    (by
      have h : (lexer_trim (statement_text long_statement (-1) 0)).length = 1030 := by rfl
      rw [h]
      decide)
    rfl rfl (by decide)
    (fun e he => by
      rw [List.eq_of_mem_replicate he]
      rfl)

/-! ## Lemmas for the claims on frames, projection and delimiting -/

theorem getElem?_some_lt {α : Type} (l : List α) (i : Nat) (a : α) (h : l[i]? = some a) :
    i < l.length := by
  by_contra hcon
  rw [List.getElem?_eq_none (by omega)] at h
  cases h

theorem recorded_length (env : Env) (entry : procEntry) (t : List Nat) (queryId : Nat)
    (hbuf : entry.query.length = env.pgstat_track_activity_query_size) :
    (recorded env entry t queryId).query.length = env.pgstat_track_activity_query_size := by
  unfold recorded
  simp only [List.length_append, List.length_take, List.length_drop]
  omega

theorem text_column_eq (buf : List Nat) : text_column buf = nullable_text buf := by
  unfold text_column nullable_text cstring
  cases buf with
  | nil => simp
  | cons a rest =>
    by_cases ha : a = 0
    · subst ha
      simp
    · simp [ha]

theorem history_loop_not_error (arr : List ashEntry) :
    ∀ (fuel i : Nat) (tupstore : List Row) (err : ErrorData),
      history_loop arr fuel i tupstore ≠ .error err := by
  intro fuel
  induction fuel with
  | zero => intro i tupstore err; simp [history_loop]
  | succ fuel ih =>
    intro i tupstore err
    unfold history_loop
    cases arr[i]? with
    | none => simp
    | some e =>
      simp only
      split
      · exact ih _ _ _
      · simp

theorem statement_text_eq_delimited (s : List Nat) (o l : Int)
    (hnul : ∀ b ∈ s, b ≠ 0) :
    statement_text s o l = delimited s o l := by
  have hdrop : ∀ n, strlen (s.drop n) = (s.drop n).length := fun n =>
    strlen_eq_length_of_no_nul _ (fun b hb => hnul b (List.mem_of_mem_drop hb))
  unfold statement_text statement_bounds delimited
  by_cases ho : 0 ≤ o
  · by_cases hl : l ≤ 0
    · have hl2 : ¬ (0 ≤ o ∧ 0 < l) := by omega
      simp only [if_pos ho, if_pos hl, if_neg hl2, hdrop]
      exact List.take_length _
    · have hl2 : 0 ≤ o ∧ 0 < l := by omega
      simp only [if_pos ho, if_neg hl, if_pos hl2]
  · have hl2 : ¬ (0 ≤ o ∧ 0 < l) := by omega
    simp only [if_neg ho, if_neg hl2]
    rw [strlen_eq_length_of_no_nul s hnul]
    exact List.take_length _

theorem statement_inside_of_fits (s : List Nat) (o l : Int)
    (hnul : ∀ b ∈ s, b ≠ 0) (hlen : 0 ≤ o → 0 < l → o.toNat + l.toNat ≤ s.length) :
    statement_inside s o l := by
  intro ho hl
  rw [strlen_eq_length_of_no_nul _ (fun b hb => hnul b (List.mem_of_mem_drop hb)),
    List.length_drop]
  have := hlen ho hl
  omega

/-! ## The claims on invariants, frames, projection and delimiting -/

/-- C14: the parse hook run on process slot `i`, for a statement text of any length that
lies inside its source, returns; slot `i` of the query table then holds the identity, the
length and the text given by the statement alone, whatever it held before, the copy
staying inside the slot's buffer (length at most `max - 1`, buffer size unchanged); every
other slot of the table is unchanged, as are the ring and the cursor. -/
theorem record_is_local (env : Env) (st : State) (i : Nat) (entry : procEntry)
    (p_sourcetext : List Nat) (stmt_location stmt_len : Int) (q : Nat)
    (hentry : st.ProcEntryArray[i]? = some entry)
    (hbuf : entry.query.length = env.pgstat_track_activity_query_size)
    (hin : statement_inside p_sourcetext stmt_location stmt_len) :
    ∃ st1 stored,
      ash_post_parse_analyze env st (some i) p_sourcetext stmt_location stmt_len q
        = .returned st1 ∧
      st1.ProcEntryArray[i]? = some stored ∧
      stored.queryid = (if q = 0 then env.hash_any_extended
        (lexer_trim (statement_text p_sourcetext stmt_location stmt_len)) 0 else q) ∧
      stored.qlen = min (lexer_trim (statement_text p_sourcetext stmt_location stmt_len)).length
        (env.pgstat_track_activity_query_size - 1) ∧
      stored.query.take stored.qlen
        = (lexer_trim (statement_text p_sourcetext stmt_location stmt_len)).take
            (env.pgstat_track_activity_query_size - 1) ∧
      stored.query.length = env.pgstat_track_activity_query_size ∧
      st1.ProcEntryArray.length = st.ProcEntryArray.length ∧
      (∀ j, j ≠ i → st1.ProcEntryArray[j]? = st.ProcEntryArray[j]?) ∧
      st1.AshEntryArray = st.AshEntryArray ∧ st1.inserted = st.inserted := by
  have hilen := getElem?_some_lt _ _ _ hentry
  refine ⟨_, _, ash_post_parse_analyze_eq env st i entry _ _ _ q hentry hin,
    List.getElem?_set_self hilen, rfl, rfl, (recorded_query env entry _ q).1,
    recorded_length env entry _ q hbuf, by simp, ?_, rfl, rfl⟩
  intro j hj
  simp only
  rw [List.getElem?_set, if_neg (Ne.symm hj)]

theorem record_is_local_witness :
    ∃ st1 stored,
      ash_post_parse_analyze example_env example_state (some 0) long_statement (-1) 0 0
        = .returned st1 ∧
      st1.ProcEntryArray[0]? = some stored ∧
      stored.queryid = (if (0 : Nat) = 0 then example_env.hash_any_extended
        (lexer_trim (statement_text long_statement (-1) 0)) 0 else 0) ∧
      stored.qlen = min (lexer_trim (statement_text long_statement (-1) 0)).length
        (example_env.pgstat_track_activity_query_size - 1) ∧
      stored.query.take stored.qlen
        = (lexer_trim (statement_text long_statement (-1) 0)).take
            (example_env.pgstat_track_activity_query_size - 1) ∧
      stored.query.length = example_env.pgstat_track_activity_query_size ∧
      st1.ProcEntryArray.length = example_state.ProcEntryArray.length ∧
      (∀ j, j ≠ 0 → st1.ProcEntryArray[j]? = example_state.ProcEntryArray[j]?) ∧
      st1.AshEntryArray = example_state.AshEntryArray ∧
      st1.inserted = example_state.inserted :=
  record_is_local example_env example_state 0 (zero_procEntry example_env) long_statement
    (-1) 0 0 rfl (by simp [zero_procEntry]) (fun h => absurd h (by decide))

/-- C16: `pg_active_session_history_internal` raises the error
`ERRCODE_OBJECT_NOT_IN_PREREQUISITE_STATE` exactly when the entry array is not attached:
in that case it raises it whatever the call context, so returns no rows, and when the
array is attached no error of that class is raised. -/
theorem materialize_requires_storage (st : State) (fcinfo : FunctionCallInfo) :
    (pg_active_session_history_internal st fcinfo
        = .error ⟨.ERRCODE_OBJECT_NOT_IN_PREREQUISITE_STATE,
            .must_be_loaded_via_shared_preload_libraries⟩
      ↔ st.AshEntryArray = none) ∧
    ((∃ msg, pg_active_session_history_internal st fcinfo
        = .error ⟨.ERRCODE_OBJECT_NOT_IN_PREREQUISITE_STATE, msg⟩)
      ↔ st.AshEntryArray = none) := by
  have hsome : ∀ arr msg, st.AshEntryArray = some arr →
      pg_active_session_history_internal st fcinfo
        ≠ .error ⟨.ERRCODE_OBJECT_NOT_IN_PREREQUISITE_STATE, msg⟩ := by
    intro arr msg harr h
    unfold pg_active_session_history_internal at h
    rw [harr] at h
    simp only at h
    split at h
    · cases h
    · split at h
      · cases h
      · split at h
        · cases h
        · exact history_loop_not_error _ _ _ _ _ h
  have hnone : st.AshEntryArray = none →
      pg_active_session_history_internal st fcinfo
        = .error ⟨.ERRCODE_OBJECT_NOT_IN_PREREQUISITE_STATE,
            .must_be_loaded_via_shared_preload_libraries⟩ := by
    intro h
    unfold pg_active_session_history_internal
    rw [h]
  constructor
  · constructor
    · intro h
      cases harr : st.AshEntryArray with
      | none => rfl
      | some arr => exact absurd h (hsome arr _ harr)
    · exact hnone
  · constructor
    · rintro ⟨msg, h⟩
      cases harr : st.AshEntryArray with
      | none => rfl
      | some arr => exact absurd h (hsome arr _ harr)
    · intro h
      exact ⟨_, hnone h⟩

/-- C19: a tick whose activity query returns no tuple returns with the shared state
unchanged: every ring slot and the cursor are as before, and the set-returning function
gives the same result before and after it. -/
theorem empty_tick_changes_nothing (env : Env) (st : State) (ash_time : Int)
    (fcinfo : FunctionCallInfo) :
    ∃ st1, pgsentinel_tick env st ash_time [] = .returned st1 ∧
      st1.AshEntryArray = st.AshEntryArray ∧ st1.inserted = st.inserted ∧
      pg_active_session_history_internal st1 fcinfo
        = pg_active_session_history_internal st fcinfo :=
  ⟨st, rfl, rfl, rfl, rfl⟩

/-- C20: for a source text `s` (a C string), offset `o` and length `l` with `o + l ≤ |s|`
when both are given, the statement that the parse hook trims, hashes and stores is the
one the specification delimits: `s[o, o+l)` when `o ≥ 0` and `l > 0`, `s[o, |s|)` when
`o ≥ 0` and `l ≤ 0`, the whole of `s` when `o < 0`. -/
theorem statement_delimiting (env : Env) (st : State) (i : Nat) (entry : procEntry)
    (s : List Nat) (o l : Int) (q : Nat)
    (hentry : st.ProcEntryArray[i]? = some entry)
    (hnul : ∀ b ∈ s, b ≠ 0)
    (hlen : 0 ≤ o → 0 < l → o.toNat + l.toNat ≤ s.length) :
    statement_text s o l = delimited s o l ∧
    (0 ≤ o → 0 < l → delimited s o l = (s.drop o.toNat).take l.toNat) ∧
    (0 ≤ o → l ≤ 0 → delimited s o l = s.drop o.toNat) ∧
    (o < 0 → delimited s o l = s) ∧
    ash_post_parse_analyze env st (some i) s o l q
      = .returned { st with
          ProcEntryArray := st.ProcEntryArray.set i
            (recorded env entry (lexer_trim (delimited s o l)) q) } := by
  have heq := statement_text_eq_delimited s o l hnul
  refine ⟨heq, ?_, ?_, ?_, ?_⟩
  · intro ho hl
    unfold delimited
    rw [if_pos ⟨ho, hl⟩]
  · intro ho hl
    unfold delimited
    rw [if_neg (by omega), if_pos ho]
  · intro ho
    unfold delimited
    rw [if_neg (by omega), if_neg (by omega)]
  · rw [← heq]
    exact ash_post_parse_analyze_eq env st i entry s o l q hentry
      (statement_inside_of_fits s o l hnul hlen)

theorem statement_delimiting_witness :
    statement_text (select_1 ++ [59, 32] ++ select_2) 9 9
      = delimited (select_1 ++ [59, 32] ++ select_2) 9 9 ∧
    ((0 : Int) ≤ 9 → (0 : Int) < 9 → delimited (select_1 ++ [59, 32] ++ select_2) 9 9
      = ((select_1 ++ [59, 32] ++ select_2).drop (9 : Int).toNat).take (9 : Int).toNat) ∧
    ((0 : Int) ≤ 9 → (9 : Int) ≤ 0 → delimited (select_1 ++ [59, 32] ++ select_2) 9 9
      = (select_1 ++ [59, 32] ++ select_2).drop (9 : Int).toNat) ∧
    ((9 : Int) < 0 → delimited (select_1 ++ [59, 32] ++ select_2) 9 9
      = select_1 ++ [59, 32] ++ select_2) ∧
    ash_post_parse_analyze example_env example_state (some 0)
        (select_1 ++ [59, 32] ++ select_2) 9 9 0
      = .returned { example_state with
          ProcEntryArray := example_state.ProcEntryArray.set 0
            (recorded example_env (zero_procEntry example_env)
              (lexer_trim (delimited (select_1 ++ [59, 32] ++ select_2) 9 9)) 0) } :=
  statement_delimiting example_env example_state 0 (zero_procEntry example_env)
    (select_1 ++ [59, 32] ++ select_2) 9 9 0 rfl (by decide) (fun _ _ => by decide)

/-- The columns of a slot, each nullable one written as the specification words it. -/
theorem row_of_entry_eq (e : ashEntry) :
    row_of_entry e =
      [ some (.TimestampTz e.ash_time),
        if e.datid = 0 then none else some (.ObjectId e.datid),
        nullable_text e.datname,
        if e.pid = 0 then none else some (.Int32 e.pid),
        if e.usesysid = 0 then none else some (.ObjectId e.usesysid),
        nullable_text e.usename,
        nullable_text e.application_name,
        nullable_text e.client_addr,
        nullable_text e.client_hostname,
        if e.client_port = 0 then none else some (.Int32 e.client_port),
        if e.backend_start = 0 then none else some (.TimestampTz e.backend_start),
        if e.xact_start = 0 then none else some (.TimestampTz e.xact_start),
        if e.query_start = 0 then none else some (.TimestampTz e.query_start),
        if e.state_change = 0 then none else some (.TimestampTz e.state_change),
        nullable_text e.wait_event_type,
        nullable_text e.wait_event,
        nullable_text e.state,
        if e.backend_xid = 0 then none else some (.TransactionId e.backend_xid),
        if e.backend_xmin = 0 then none else some (.TransactionId e.backend_xmin),
        nullable_text e.top_level_query,
        nullable_text e.query,
        some (.Int64 e.queryid),
        nullable_text e.backend_type ] := by
  unfold row_of_entry
  simp only [text_column_eq, ne_eq, ite_not]

/-- C15: for a slot `i` with a capture time other than zero that the reader reaches, the
row it emits has exactly 23 columns, in the order capture time, database id, database
name, worker id, user id, user name, application name, client address, client hostname,
client port, connection start, transaction start, statement start, last state change,
wait class, wait event, state, current transaction id, oldest transaction id, top-level
text, resolved text, query identity, worker kind; capture time and query identity are
never null, every other column is null exactly when the slot's value is zero or the
empty string, and carries that value otherwise. -/
theorem row_of_populated_slot (st : State) (arr : List ashEntry) (k i : Nat) (e : ashEntry)
    (harr : st.AshEntryArray = some arr) (hlen : arr.length = st.ash_max_entries)
    (hk : k ≤ arr.length)
    (hnz : ∀ j e, j < k → arr[j]? = some e → e.ash_time ≠ 0)
    (hz : k < arr.length → ∃ e, arr[k]? = some e ∧ e.ash_time = 0)
    (hi : i < k) (he : arr[i]? = some e) :
    ∃ rows row,
      pg_active_session_history_internal st materialize_call = .ok rows ∧
      rows[i]? = some row ∧ row.length = 23 ∧
      row =
        [ some (.TimestampTz e.ash_time),
          if e.datid = 0 then none else some (.ObjectId e.datid),
          nullable_text e.datname,
          if e.pid = 0 then none else some (.Int32 e.pid),
          if e.usesysid = 0 then none else some (.ObjectId e.usesysid),
          nullable_text e.usename,
          nullable_text e.application_name,
          nullable_text e.client_addr,
          nullable_text e.client_hostname,
          if e.client_port = 0 then none else some (.Int32 e.client_port),
          if e.backend_start = 0 then none else some (.TimestampTz e.backend_start),
          if e.xact_start = 0 then none else some (.TimestampTz e.xact_start),
          if e.query_start = 0 then none else some (.TimestampTz e.query_start),
          if e.state_change = 0 then none else some (.TimestampTz e.state_change),
          nullable_text e.wait_event_type,
          nullable_text e.wait_event,
          nullable_text e.state,
          if e.backend_xid = 0 then none else some (.TransactionId e.backend_xid),
          if e.backend_xmin = 0 then none else some (.TransactionId e.backend_xmin),
          nullable_text e.top_level_query,
          nullable_text e.query,
          some (.Int64 e.queryid),
          nullable_text e.backend_type ] := by
  refine ⟨_, row_of_entry e, history_spec st arr k harr hlen hk hnz hz, ?_, ?_,
    row_of_entry_eq e⟩
  · rw [List.getElem?_map, List.getElem?_take, if_pos hi, he]
    rfl
  · rfl

/-! ## Terminated buffers -/

theorem cstring_no_nul (buf : List Nat) : ∀ b ∈ cstring buf, b ≠ 0 := by
  intro b hb
  have h := List.mem_takeWhile_imp hb
  simpa using h

theorem cstring_append_zero (c rest : List Nat) (hc : ∀ b ∈ c, b ≠ 0) :
    cstring (c ++ 0 :: rest) = c := by
  unfold cstring
  rw [List.takeWhile_append_of_pos (by simpa using hc)]
  simp

/-- The bytes at a C string pointer: the string, its terminator, then whatever follows. -/
theorem cstring_split (src : List Nat) :
    ∃ rest, src ++ [0] = cstring src ++ 0 :: rest := by
  unfold cstring
  cases hd : src.dropWhile (fun b => b != 0) with
  | nil =>
    refine ⟨[], ?_⟩
    have h := List.takeWhile_append_dropWhile (fun b => b != 0) src
    rw [hd, List.append_nil] at h
    rw [h]
  | cons a rest =>
    have ha := dropWhile_head_false (fun b => b != 0) src a rest hd
    have ha0 : a = 0 := by simpa using ha
    subst ha0
    refine ⟨rest ++ [0], ?_⟩
    have h := List.takeWhile_append_dropWhile (fun b => b != 0) src
    rw [hd] at h
    conv_lhs => rw [← h]
    simp

theorem terminated_drop (size : Nat) (buf : List Nat) (h : terminated size buf)
    (hsize : 1 ≤ size) : buf.drop (size - 1) = [0] := by
  obtain ⟨hl, hlast⟩ := h
  have hlt : size - 1 < buf.length := by omega
  rw [List.drop_eq_getElem_cons hlt]
  rw [List.getElem?_eq_getElem hlt] at hlast
  simp only [Option.some.injEq] at hlast
  rw [hlast, List.drop_of_length_le (by omega)]

theorem memcpy_terminated (size : Nat) (dst src : List Nat) (n : Nat)
    (hdst : terminated size dst) (hn : n ≤ size - 1) (hsize : 1 ≤ size)
    (hsrc : n ≤ src.length) : terminated size (memcpy dst src n) := by
  obtain ⟨hl, hlast⟩ := hdst
  refine ⟨by rw [memcpy_length dst src n hsrc (by omega), hl], ?_⟩
  unfold memcpy
  have htl : (src.take n).length = n := by rw [List.length_take]; omega
  rw [List.getElem?_append_right (by omega), htl, List.getElem?_drop]
  have : n + (size - 1 - n) = size - 1 := by omega
  rw [this]
  exact hlast

/-- The copy of line 612 and its siblings, read back as a string: the input cut at
`size - 1` bytes, with nothing of the previous content. -/
theorem cstring_memcpy (size : Nat) (dst src : List Nat) (hdst : terminated size dst)
    (hsize : 1 ≤ size) :
    cstring (memcpy dst (src ++ [0]) (min (strlen src + 1) (size - 1)))
      = (cstring src).take (size - 1) := by
  obtain ⟨rest, hsplit⟩ := cstring_split src
  have hstr : strlen src = (cstring src).length := rfl
  have hnn := cstring_no_nul src
  rw [hsplit, hstr]
  unfold memcpy
  by_cases hcase : (cstring src).length + 1 ≤ size - 1
  · rw [Nat.min_eq_left hcase]
    have htake : (cstring src ++ 0 :: rest).take ((cstring src).length + 1)
        = cstring src ++ [0] := by
      rw [List.take_append_eq_append_take]
      simp
    rw [htake, List.append_assoc, List.singleton_append, cstring_append_zero _ _ hnn,
      List.take_of_length_le (by omega)]
  · have hle : size - 1 ≤ (cstring src).length := by omega
    rw [Nat.min_eq_right (by omega), List.take_append_of_le_length hle,
      terminated_drop size dst hdst hsize]
    exact cstring_append_zero _ [] (fun b hb => hnn b (List.mem_of_mem_take hb))

theorem copy_length_le_source (src : List Nat) (n : Nat) :
    min (strlen src + 1) n ≤ (src ++ [0]).length := by
  have := strlen_le_length src
  simp only [List.length_append, List.length_singleton]
  omega

/-- Lines 612-631 keep every string buffer of the slot terminated in its last byte. -/
theorem store_activity_ok (env : Env) (e : ashEntry) (r : ActivityRecord)
    (hN : 1 ≤ env.NAMEDATALEN) (hQ : 1 ≤ env.pgstat_track_activity_query_size)
    (h : slot_ok env e) : slot_ok env (store_activity env e r) := by
  obtain ⟨h1, h2, h3, h4, h5, h6, h7, h8, h9, h10, h11⟩ := h
  unfold store_activity
  exact ⟨memcpy_terminated _ _ _ _ h1 (Nat.min_le_right _ _) hN (copy_length_le_source _ _),
    memcpy_terminated _ _ _ _ h2 (Nat.min_le_right _ _) hN (copy_length_le_source _ _),
    memcpy_terminated _ _ _ _ h3 (Nat.min_le_right _ _) hN (copy_length_le_source _ _),
    memcpy_terminated _ _ _ _ h4 (Nat.min_le_right _ _) hN (copy_length_le_source _ _),
    memcpy_terminated _ _ _ _ h5 (Nat.min_le_right _ _) hN (copy_length_le_source _ _),
    memcpy_terminated _ _ _ _ h6 (Nat.min_le_right _ _) hN (copy_length_le_source _ _),
    memcpy_terminated _ _ _ _ h7 (Nat.min_le_right _ _) hN (copy_length_le_source _ _),
    memcpy_terminated _ _ _ _ h8 (Nat.min_le_right _ _) hQ (copy_length_le_source _ _),
    h9,
    memcpy_terminated _ _ _ _ h10 (Nat.min_le_right _ _) hN (copy_length_le_source _ _),
    memcpy_terminated _ _ _ _ h11 (Nat.min_le_right _ _) hN (copy_length_le_source _ _)⟩

theorem resolved_len_le (env : Env) (newprocentry : procEntry)
    (hQ : 2 ≤ env.pgstat_track_activity_query_size) :
    resolved_len env newprocentry ≤ env.pgstat_track_activity_query_size - 1 := by
  unfold resolved_len
  omega

/-- Lines 633-637 keep every string buffer of the slot terminated in its last byte. -/
theorem store_resolved_ok (env : Env) (e : ashEntry) (newprocentry : procEntry)
    (ash_time : Int) (hQ : 2 ≤ env.pgstat_track_activity_query_size)
    (hsrc : newprocentry.query.length = env.pgstat_track_activity_query_size)
    (h : slot_ok env e) : slot_ok env (store_resolved env e newprocentry ash_time) := by
  obtain ⟨h1, h2, h3, h4, h5, h6, h7, h8, h9, h10, h11⟩ := h
  have hlen := resolved_len_le env newprocentry hQ
  have hm := memcpy_terminated _ e.query newprocentry.query (resolved_len env newprocentry)
    h9 hlen (by omega) (by omega)
  refine ⟨h1, h2, h3, h4, h5, h6, h7, h8, ?_, h10, h11⟩
  unfold store_resolved
  simp only
  refine ⟨by rw [List.length_set]; exact hm.1, ?_⟩
  rw [List.getElem?_set]
  split
  · rw [if_pos (by rw [hm.1]; omega)]
  · exact hm.2

/-! ## The layout invariant along runs -/

theorem search_procentry_loop_mem (st : State) (pid : Int) (entry : procEntry) :
    ∀ fuel i, search_procentry_loop st pid fuel i = .ok entry → entry ∈ st.ProcEntryArray := by
  intro fuel
  induction fuel with
  | zero => intro i h; simp [search_procentry_loop] at h
  | succ fuel ih =>
    intro i h
    unfold search_procentry_loop at h
    cases hp : st.allProcs[i]? with
    | none => rw [hp] at h; cases h
    | some proc =>
      rw [hp] at h
      simp only at h
      split at h
      · cases he : st.ProcEntryArray[i]? with
        | none => rw [he] at h; cases h
        | some found =>
          rw [he] at h
          simp only [Result.ok.injEq] at h
          subst h
          exact List.getElem?_mem he
      · exact ih _ h

theorem search_procentry_mem (st : State) (pid : Int) (entry : procEntry)
    (h : search_procentry st pid = .ok entry) : entry ∈ st.ProcEntryArray :=
  search_procentry_loop_mem st pid entry _ _ h

/-- The four ways `ash_entry_store` ends. -/
theorem ash_entry_store_cases (env : Env) (st : State) (ash_time : Int) (i : Nat)
    (r : ActivityRecord) :
    ash_entry_store env st ash_time i r = .undefined ∨
    (∃ arr e newprocentry, st.AshEntryArray = some arr ∧ arr[i]? = some e ∧
      search_procentry st r.pid = .ok newprocentry ∧
      ash_entry_store env st ash_time i r = .returned { st with
        AshEntryArray := some (arr.set i
          (store_resolved env (store_activity env e r) newprocentry ash_time)) }) ∨
    (∃ arr e err, st.AshEntryArray = some arr ∧ arr[i]? = some e ∧
      search_procentry st r.pid = .error err ∧
      ash_entry_store env st ash_time i r = .raised { st with
        AshEntryArray := some (arr.set i (store_activity env e r)) } err) := by
  cases harr : st.AshEntryArray with
  | none => left; simp [ash_entry_store, harr]
  | some arr =>
    cases hi : arr[i]? with
    | none => left; simp [ash_entry_store, harr, hi]
    | some e =>
      have heq := ash_entry_store_eq env st arr e ash_time i r harr hi
      cases hs : search_procentry st r.pid with
      | undefined => left; rw [heq, hs]
      | error err =>
        right; right
        rw [hs] at heq
        exact ⟨arr, e, err, rfl, hi, rfl, heq⟩
      | ok newprocentry =>
        right; left
        rw [hs] at heq
        exact ⟨arr, e, newprocentry, rfl, hi, rfl, heq⟩

/-- The ways `ash_prepare_store` ends. -/
theorem ash_prepare_store_cases (env : Env) (st : State) (ash_time : Int)
    (r : ActivityRecord) :
    ash_prepare_store env st ash_time r = .undefined ∨
    (st.AshEntryArray = none ∧ ash_prepare_store env st ash_time r = .returned st) ∨
    (∃ arr e newprocentry, st.AshEntryArray = some arr ∧
      arr[st.inserted % st.ash_max_entries]? = some e ∧
      search_procentry st r.pid = .ok newprocentry ∧
      ash_prepare_store env st ash_time r = .returned { st with
        inserted := st.inserted % st.ash_max_entries + 1,
        AshEntryArray := some (arr.set (st.inserted % st.ash_max_entries)
          (store_resolved env (store_activity env e r) newprocentry ash_time)) }) ∨
    (∃ arr e err, st.AshEntryArray = some arr ∧
      arr[st.inserted % st.ash_max_entries]? = some e ∧
      search_procentry st r.pid = .error err ∧
      ash_prepare_store env st ash_time r = .raised { st with
        inserted := st.inserted % st.ash_max_entries + 1,
        AshEntryArray := some (arr.set (st.inserted % st.ash_max_entries)
          (store_activity env e r)) } err) := by
  cases harr : st.AshEntryArray with
  | none => right; left; exact ⟨rfl, by simp [ash_prepare_store, harr]⟩
  | some arr =>
    by_cases hC : st.ash_max_entries = 0
    · left; simp [ash_prepare_store, harr, hC]
    · cases hi : arr[st.inserted % st.ash_max_entries]? with
      | none =>
        left
        simp [ash_prepare_store, harr, hC, ash_entry_store, hi]
      | some e =>
        have heq := ash_prepare_store_eq env st arr e ash_time r harr hC hi
        cases hs : search_procentry st r.pid with
        | undefined => left; rw [heq, hs]
        | error err =>
          right; right; right
          rw [hs] at heq
          exact ⟨arr, e, err, rfl, hi, rfl, heq⟩
        | ok newprocentry =>
          right; right; left
          rw [hs] at heq
          exact ⟨arr, e, newprocentry, rfl, hi, rfl, heq⟩

theorem slot_ok_set (env : Env) (arr : List ashEntry) (i : Nat) (e1 : ashEntry)
    (harr : ∀ e ∈ arr, slot_ok env e) (he1 : slot_ok env e1) :
    ∀ e ∈ arr.set i e1, slot_ok env e := by
  intro e he
  rcases List.mem_or_eq_of_mem_set he with h | h
  · exact harr e h
  · rw [h]; exact he1

/-- An append keeps the layout, whether it returns or raises. -/
theorem ash_prepare_store_layout (env : Env) (st st1 : State) (ash_time : Int)
    (r : ActivityRecord) (hN : 1 ≤ env.NAMEDATALEN)
    (hQ : 2 ≤ env.pgstat_track_activity_query_size) (hlay : layout_ok env st)
    (h : ash_prepare_store env st ash_time r = .returned st1 ∨
      ∃ err, ash_prepare_store env st ash_time r = .raised st1 err) :
    layout_ok env st1 := by
  obtain ⟨hring, htable⟩ := hlay
  rcases ash_prepare_store_cases env st ash_time r with hu | ⟨_, hr⟩ |
    ⟨arr, e, pe, harr, hi, hs, hr⟩ | ⟨arr, e, err, harr, hi, hs, hr⟩
  · rw [hu] at h
    rcases h with h | ⟨_, h⟩ <;> cases h
  · rw [hr] at h
    rcases h with h | ⟨_, h⟩
    · simp only [Outcome.returned.injEq] at h
      subst h
      exact ⟨hring, htable⟩
    · cases h
  · rw [hr] at h
    rcases h with h | ⟨_, h⟩
    · simp only [Outcome.returned.injEq] at h
      subst h
      refine ⟨?_, htable⟩
      intro arr1 harr1
      simp only [Option.some.injEq] at harr1
      subst harr1
      have he := hring arr harr e (List.getElem?_mem hi)
      exact slot_ok_set env arr _ _ (hring arr harr)
        (store_resolved_ok env _ pe ash_time hQ (htable pe (search_procentry_mem st _ pe hs))
          (store_activity_ok env e r hN (by omega) he))
    · cases h
  · rw [hr] at h
    rcases h with h | ⟨_, h⟩
    · cases h
    · simp only [Outcome.raised.injEq] at h
      obtain ⟨h, _⟩ := h
      subst h
      refine ⟨?_, htable⟩
      intro arr1 harr1
      simp only [Option.some.injEq] at harr1
      subst harr1
      have he := hring arr harr e (List.getElem?_mem hi)
      exact slot_ok_set env arr _ _ (hring arr harr)
        (store_activity_ok env e r hN (by omega) he)

/-- The parse hook keeps the layout when the statement lies inside its source text. -/
theorem ash_post_parse_analyze_layout (env : Env) (st st1 : State) (MyProc : Option Nat)
    (p_sourcetext : List Nat) (stmt_location stmt_len : Int) (queryId : Nat)
    (hin : statement_inside p_sourcetext stmt_location stmt_len)
    (hlay : layout_ok env st)
    (h : ash_post_parse_analyze env st MyProc p_sourcetext stmt_location stmt_len queryId
      = .returned st1) : layout_ok env st1 := by
  obtain ⟨hring, htable⟩ := hlay
  cases MyProc with
  | none =>
    simp only [ash_post_parse_analyze, Outcome.returned.injEq] at h
    subst h
    exact ⟨hring, htable⟩
  | some i =>
    cases hentry : st.ProcEntryArray[i]? with
    | none => simp [ash_post_parse_analyze, hentry] at h
    | some entry =>
      rw [ash_post_parse_analyze_eq env st i entry _ _ _ queryId hentry hin] at h
      simp only [Outcome.returned.injEq] at h
      subst h
      refine ⟨hring, ?_⟩
      intro pe hpe
      rcases List.mem_or_eq_of_mem_set hpe with h1 | h1
      · exact htable pe h1
      · rw [h1]
        exact recorded_length env entry _ queryId (htable entry (List.getElem?_mem hentry))

theorem step_layout (env : Env) (st st1 : State) (ev : Event)
    (hN : 1 ≤ env.NAMEDATALEN) (hQ : 2 ≤ env.pgstat_track_activity_query_size)
    (hin : parses_inside [ev]) (hlay : layout_ok env st)
    (h : step env st ev = .returned st1 ∨ ∃ err, step env st ev = .raised st1 err) :
    layout_ok env st1 := by
  cases ev with
  | sample ash_time r => exact ash_prepare_store_layout env st st1 ash_time r hN hQ hlay h
  | setpid i pid =>
    simp only [step] at h
    rcases h with h | ⟨_, h⟩
    · simp only [Outcome.returned.injEq] at h
      subst h
      exact hlay
    · cases h
  | parse MyProc p_sourcetext stmt_location stmt_len queryId =>
    simp only [step] at h
    rcases h with h | ⟨err, h⟩
    · exact ash_post_parse_analyze_layout env st st1 MyProc _ _ _ queryId hin.1 hlay h
    · cases MyProc with
      | none => simp [ash_post_parse_analyze] at h
      | some i =>
        cases hentry : st.ProcEntryArray[i]? with
        | none => simp [ash_post_parse_analyze, hentry] at h
        | some entry => simp [ash_post_parse_analyze, hentry] at h

theorem parses_inside_cons (ev : Event) (evs : List Event) (h : parses_inside (ev :: evs)) :
    parses_inside [ev] ∧ parses_inside evs := by
  cases ev with
  | sample a b => exact ⟨trivial, h⟩
  | setpid a b => exact ⟨trivial, h⟩
  | parse a b c d e => exact ⟨⟨h.1, trivial⟩, h.2⟩

theorem run_layout (env : Env) (hN : 1 ≤ env.NAMEDATALEN)
    (hQ : 2 ≤ env.pgstat_track_activity_query_size) (evs : List Event) :
    ∀ (st st1 : State), parses_inside evs → layout_ok env st →
      (run env st evs = .returned st1 ∨ ∃ err, run env st evs = .raised st1 err) →
      layout_ok env st1 := by
  induction evs with
  | nil =>
    intro st st1 _ hlay h
    simp only [run] at h
    rcases h with h | ⟨_, h⟩
    · simp only [Outcome.returned.injEq] at h
      subst h
      exact hlay
    · cases h
  | cons ev evs ih =>
    intro st st1 hin hlay h
    obtain ⟨hin1, hin2⟩ := parses_inside_cons ev evs hin
    simp only [run] at h
    cases hs : step env st ev with
    | undefined =>
      rw [hs] at h
      rcases h with h | ⟨_, h⟩ <;> cases h
    | raised st2 err =>
      rw [hs] at h
      rcases h with h | ⟨err2, h⟩
      · cases h
      · simp only [Outcome.raised.injEq] at h
        obtain ⟨h, _⟩ := h
        subst h
        exact step_layout env st st2 ev hN hQ hin1 hlay (Or.inr ⟨err, hs⟩)
    | returned st2 =>
      rw [hs] at h
      exact ih st2 st1 hin2 (step_layout env st st2 ev hN hQ hin1 hlay (Or.inl hs)) h

theorem terminated_replicate (size : Nat) (hsize : 1 ≤ size) :
    terminated size (List.replicate size 0) := by
  refine ⟨List.length_replicate _ _, ?_⟩
  rw [List.getElem?_replicate, if_pos (by omega)]

theorem startup_layout (env : Env) (C : Nat) (allProcs : List PGPROC)
    (hN : 1 ≤ env.NAMEDATALEN) (hQ : 1 ≤ env.pgstat_track_activity_query_size) :
    layout_ok env (ash_shmem_startup env C allProcs) := by
  have hn := terminated_replicate env.NAMEDATALEN hN
  have hq := terminated_replicate env.pgstat_track_activity_query_size hQ
  constructor
  · intro arr harr e he
    simp only [ash_shmem_startup, Option.some.injEq] at harr
    subst harr
    rw [List.eq_of_mem_replicate he]
    exact ⟨hn, hn, hn, hn, hn, hn, hn, hq, hq, hn, hn⟩
  · intro entry hentry
    simp only [ash_shmem_startup] at hentry
    rw [List.eq_of_mem_replicate hentry]
    exact List.length_replicate _ _

theorem step_attached (env : Env) (st st1 : State) (ev : Event)
    (hatt : st.AshEntryArray.isSome = true)
    (h : step env st ev = .returned st1 ∨ ∃ err, step env st ev = .raised st1 err) :
    st1.AshEntryArray.isSome = true := by
  cases ev with
  | sample ash_time r =>
    simp only [step] at h
    rcases ash_prepare_store_cases env st ash_time r with hu | ⟨_, hr⟩ |
      ⟨arr, e, pe, harr, hi, hs, hr⟩ | ⟨arr, e, err, harr, hi, hs, hr⟩
    · rw [hu] at h
      rcases h with h | ⟨_, h⟩ <;> cases h
    · rw [hr] at h
      rcases h with h | ⟨_, h⟩
      · simp only [Outcome.returned.injEq] at h
        subst h
        exact hatt
      · cases h
    · rw [hr] at h
      rcases h with h | ⟨_, h⟩
      · simp only [Outcome.returned.injEq] at h
        subst h
        rfl
      · cases h
    · rw [hr] at h
      rcases h with h | ⟨_, h⟩
      · cases h
      · simp only [Outcome.raised.injEq] at h
        obtain ⟨h, _⟩ := h
        subst h
        rfl
  | setpid i pid =>
    simp only [step] at h
    rcases h with h | ⟨_, h⟩
    · simp only [Outcome.returned.injEq] at h
      subst h
      exact hatt
    · cases h
  | parse MyProc p_sourcetext stmt_location stmt_len queryId =>
    simp only [step] at h
    cases MyProc with
    | none =>
      rcases h with h | ⟨_, h⟩
      · simp only [ash_post_parse_analyze, Outcome.returned.injEq] at h
        subst h
        exact hatt
      · simp [ash_post_parse_analyze] at h
    | some i =>
      cases hentry : st.ProcEntryArray[i]? with
      | none =>
        rcases h with h | ⟨_, h⟩ <;> simp [ash_post_parse_analyze, hentry] at h
      | some entry =>
        rcases h with h | ⟨_, h⟩
        · simp only [ash_post_parse_analyze, hentry, Outcome.returned.injEq] at h
          subst h
          exact hatt
        · simp [ash_post_parse_analyze, hentry] at h

theorem run_attached (env : Env) (evs : List Event) :
    ∀ (st st1 : State), st.AshEntryArray.isSome = true →
      (run env st evs = .returned st1 ∨ ∃ err, run env st evs = .raised st1 err) →
      st1.AshEntryArray.isSome = true := by
  induction evs with
  | nil =>
    intro st st1 hatt h
    simp only [run] at h
    rcases h with h | ⟨_, h⟩
    · simp only [Outcome.returned.injEq] at h
      subst h
      exact hatt
    · cases h
  | cons ev evs ih =>
    intro st st1 hatt h
    simp only [run] at h
    cases hs : step env st ev with
    | undefined =>
      rw [hs] at h
      rcases h with h | ⟨_, h⟩ <;> cases h
    | raised st2 err =>
      rw [hs] at h
      rcases h with h | ⟨err2, h⟩
      · cases h
      · simp only [Outcome.raised.injEq] at h
        obtain ⟨h, _⟩ := h
        subst h
        exact step_attached env st st2 ev hatt (Or.inr ⟨err, hs⟩)
    | returned st2 =>
      rw [hs] at h
      exact ih st2 st1 (step_attached env st st2 ev hatt (Or.inl hs)) h

/-- C11: in every state that a run from the zero-initialised ring ends in (appends, with
parse events and pid changes in between, the last append possibly raising), every string
field of every slot has its allocated size and a NUL in its last byte; and after one
more append, returned or raised, each string field copied from the activity record (user,
database, application, wait class, wait event, state, client hostname, worker kind and
client address at `NAMEDATALEN`, top-level text at the statement-text size), read as a
terminated string, is the input cut at (buffer size - 1) bytes. -/
theorem string_fields_terminated (env : Env) (C : Nat) (allProcs : List PGPROC)
    (evs : List Event) (st : State)
    (hN : 1 ≤ env.NAMEDATALEN) (hQ : 2 ≤ env.pgstat_track_activity_query_size)
    (hin : parses_inside evs)
    (hrun : run env (ash_shmem_startup env C allProcs) evs = .returned st ∨
      ∃ err, run env (ash_shmem_startup env C allProcs) evs = .raised st err) :
    (∀ arr, st.AshEntryArray = some arr → ∀ e ∈ arr, slot_ok env e) ∧
    ∀ ash_time r st1,
      (ash_prepare_store env st ash_time r = .returned st1 ∨
        ∃ err, ash_prepare_store env st ash_time r = .raised st1 err) →
      ∃ arr1 e1, st1.AshEntryArray = some arr1 ∧
        arr1[st.inserted % st.ash_max_entries]? = some e1 ∧
        cstring e1.usename = (cstring r.usename).take (env.NAMEDATALEN - 1) ∧
        cstring e1.datname = (cstring r.datname).take (env.NAMEDATALEN - 1) ∧
        cstring e1.application_name
          = (cstring r.application_name).take (env.NAMEDATALEN - 1) ∧
        cstring e1.wait_event_type
          = (cstring r.wait_event_type).take (env.NAMEDATALEN - 1) ∧
        cstring e1.wait_event = (cstring r.wait_event).take (env.NAMEDATALEN - 1) ∧
        cstring e1.state = (cstring r.state).take (env.NAMEDATALEN - 1) ∧
        cstring e1.client_hostname
          = (cstring r.client_hostname).take (env.NAMEDATALEN - 1) ∧
        cstring e1.top_level_query
          = (cstring r.query).take (env.pgstat_track_activity_query_size - 1) ∧
        cstring e1.backend_type = (cstring r.backend_type).take (env.NAMEDATALEN - 1) ∧
        cstring e1.client_addr = (cstring r.client_addr).take (env.NAMEDATALEN - 1) := by
  have hlay := run_layout env hN hQ evs _ st hin
    (startup_layout env C allProcs hN (by omega)) hrun
  have hatt := run_attached env evs _ st (by rfl) hrun
  refine ⟨hlay.1, ?_⟩
  intro ash_time r st1 h
  have hfields : ∀ e, slot_ok env e →
      cstring (store_activity env e r).usename
        = (cstring r.usename).take (env.NAMEDATALEN - 1) ∧
      cstring (store_activity env e r).datname
        = (cstring r.datname).take (env.NAMEDATALEN - 1) ∧
      cstring (store_activity env e r).application_name
        = (cstring r.application_name).take (env.NAMEDATALEN - 1) ∧
      cstring (store_activity env e r).wait_event_type
        = (cstring r.wait_event_type).take (env.NAMEDATALEN - 1) ∧
      cstring (store_activity env e r).wait_event
        = (cstring r.wait_event).take (env.NAMEDATALEN - 1) ∧
      cstring (store_activity env e r).state
        = (cstring r.state).take (env.NAMEDATALEN - 1) ∧
      cstring (store_activity env e r).client_hostname
        = (cstring r.client_hostname).take (env.NAMEDATALEN - 1) ∧
      cstring (store_activity env e r).top_level_query
        = (cstring r.query).take (env.pgstat_track_activity_query_size - 1) ∧
      cstring (store_activity env e r).backend_type
        = (cstring r.backend_type).take (env.NAMEDATALEN - 1) ∧
      cstring (store_activity env e r).client_addr
        = (cstring r.client_addr).take (env.NAMEDATALEN - 1) := by
    intro e he
    obtain ⟨h1, h2, h3, h4, h5, h6, h7, h8, _, h10, h11⟩ := he
    exact ⟨cstring_memcpy _ _ _ h1 hN, cstring_memcpy _ _ _ h2 hN, cstring_memcpy _ _ _ h3 hN,
      cstring_memcpy _ _ _ h4 hN, cstring_memcpy _ _ _ h5 hN, cstring_memcpy _ _ _ h6 hN,
      cstring_memcpy _ _ _ h7 hN, cstring_memcpy _ _ _ h8 (by omega),
      cstring_memcpy _ _ _ h10 hN, cstring_memcpy _ _ _ h11 hN⟩
  rcases ash_prepare_store_cases env st ash_time r with hu | ⟨hnone, _⟩ |
    ⟨arr, e, pe, harr, hi, hs, hr⟩ | ⟨arr, e, err, harr, hi, hs, hr⟩
  · rw [hu] at h
    rcases h with h | ⟨_, h⟩ <;> cases h
  · rw [hnone] at hatt
    cases hatt
  · have hilen := getElem?_some_lt _ _ _ hi
    rw [hr] at h
    rcases h with h | ⟨_, h⟩
    · simp only [Outcome.returned.injEq] at h
      subst h
      exact ⟨_, _, rfl, List.getElem?_set_self hilen,
        hfields e (hlay.1 arr harr e (List.getElem?_mem hi))⟩
    · cases h
  · have hilen := getElem?_some_lt _ _ _ hi
    rw [hr] at h
    rcases h with h | ⟨_, h⟩
    · cases h
    · simp only [Outcome.raised.injEq] at h
      obtain ⟨h, _⟩ := h
      subst h
      exact ⟨_, _, rfl, List.getElem?_set_self hilen,
        hfields e (hlay.1 arr harr e (List.getElem?_mem hi))⟩

set_option maxRecDepth 20000 in
theorem string_fields_terminated_witness :
    slot_ok example_env two_ticks_slot_1 ∧
    ∃ arr1 e1, appended_state.AshEntryArray = some arr1 ∧
      arr1[two_ticks_state.inserted % two_ticks_state.ash_max_entries]? = some e1 ∧
      cstring e1.usename
        = (cstring (example_record 100 long_statement).usename).take
            (example_env.NAMEDATALEN - 1) ∧
      cstring e1.datname
        = (cstring (example_record 100 long_statement).datname).take
            (example_env.NAMEDATALEN - 1) ∧
      cstring e1.application_name
        = (cstring (example_record 100 long_statement).application_name).take
            (example_env.NAMEDATALEN - 1) ∧
      cstring e1.wait_event_type
        = (cstring (example_record 100 long_statement).wait_event_type).take
            (example_env.NAMEDATALEN - 1) ∧
      cstring e1.wait_event
        = (cstring (example_record 100 long_statement).wait_event).take
            (example_env.NAMEDATALEN - 1) ∧
      cstring e1.state
        = (cstring (example_record 100 long_statement).state).take
            (example_env.NAMEDATALEN - 1) ∧
      cstring e1.client_hostname
        = (cstring (example_record 100 long_statement).client_hostname).take
            (example_env.NAMEDATALEN - 1) ∧
      cstring e1.top_level_query
        = (cstring (example_record 100 long_statement).query).take
            (example_env.pgstat_track_activity_query_size - 1) ∧
      cstring e1.backend_type
        = (cstring (example_record 100 long_statement).backend_type).take
            (example_env.NAMEDATALEN - 1) ∧
      cstring e1.client_addr
        = (cstring (example_record 100 long_statement).client_addr).take
            (example_env.NAMEDATALEN - 1) :=
  ⟨(string_fields_terminated example_env 3 example_procs two_ticks two_ticks_state
      (by decide) (by decide)
      ⟨fun h => absurd h (by decide), fun h => absurd h (by decide), trivial⟩
      (Or.inl rfl)).1 two_ticks_ring rfl two_ticks_slot_1
      (List.getElem?_mem (rfl : two_ticks_ring[1]? = some two_ticks_slot_1)),
    (string_fields_terminated example_env 3 example_procs two_ticks two_ticks_state
      (by decide) (by decide)
      ⟨fun h => absurd h (by decide), fun h => absurd h (by decide), trivial⟩
      (Or.inl rfl)).2 11 (example_record 100 long_statement) appended_state (Or.inl rfl)⟩

/-- C13: on a ring of any capacity whose buffers have their allocated sizes,
`ash_entry_store` on an existing slot `i`, for any record with strings of any length,
ends by returning or by raising the search error; every slot `j ≠ i` is unchanged in all
its fields, slot `i` keeps every string buffer at its allocated size with the NUL in its
last byte (each copy and the terminator stay inside the slot's own buffers, the
terminator index being below the buffer size), and the query table, the process array,
the cursor and the capacity are unchanged. -/
theorem ash_entry_store_is_local (env : Env) (st : State) (arr : List ashEntry)
    (e : ashEntry) (ash_time : Int) (i : Nat) (r : ActivityRecord)
    (hN : 1 ≤ env.NAMEDATALEN) (hQ : 2 ≤ env.pgstat_track_activity_query_size)
    (hlay : layout_ok env st) (harr : st.AshEntryArray = some arr)
    (hi : arr[i]? = some e)
    (hprocs : st.allProcs.length ≤ st.ProcEntryArray.length) :
    ∃ st1 arr1 e1,
      (ash_entry_store env st ash_time i r = .returned st1 ∨
        ∃ err, ash_entry_store env st ash_time i r = .raised st1 err) ∧
      st1.AshEntryArray = some arr1 ∧ arr1.length = arr.length ∧
      (∀ j, j ≠ i → arr1[j]? = arr[j]?) ∧
      arr1[i]? = some e1 ∧ slot_ok env e1 ∧
      (∀ newprocentry, search_procentry st r.pid = .ok newprocentry →
        resolved_len env newprocentry < env.pgstat_track_activity_query_size) ∧
      st1.ProcEntryArray = st.ProcEntryArray ∧ st1.allProcs = st.allProcs ∧
      st1.inserted = st.inserted ∧ st1.ash_max_entries = st.ash_max_entries := by
  have hilen := getElem?_some_lt _ _ _ hi
  have he := hlay.1 arr harr e (List.getElem?_mem hi)
  have hact := store_activity_ok env e r hN (by omega) he
  have hres : ∀ newprocentry : procEntry,
      resolved_len env newprocentry < env.pgstat_track_activity_query_size := by
    intro pe
    have := resolved_len_le env pe hQ
    omega
  have hframe : ∀ (e1 : ashEntry) (j : Nat), j ≠ i → (arr.set i e1)[j]? = arr[j]? := by
    intro e1 j hj
    rw [List.getElem?_set, if_neg (Ne.symm hj)]
  have heq := ash_entry_store_eq env st arr e ash_time i r harr hi
  cases hs : search_procentry st r.pid with
  | undefined => exact absurd hs (search_procentry_defined st r.pid hprocs)
  | error err =>
    rw [hs] at heq
    exact ⟨_, _, _, Or.inr ⟨err, heq⟩, rfl, List.length_set _ _ _, hframe _,
      List.getElem?_set_self hilen, hact, fun pe _ => hres pe, rfl, rfl, rfl, rfl⟩
  | ok pe =>
    rw [hs] at heq
    exact ⟨_, _, _, Or.inl heq, rfl, List.length_set _ _ _, hframe _,
      List.getElem?_set_self hilen,
      store_resolved_ok env _ pe ash_time hQ (hlay.2 pe (search_procentry_mem st _ pe hs)) hact,
      fun pe _ => hres pe, rfl, rfl, rfl, rfl⟩

theorem ash_entry_store_is_local_witness :
    ∃ st1 arr1 e1,
      (ash_entry_store example_env two_ticks_state 11 1 (example_record 999 long_statement)
          = .returned st1 ∨
        ∃ err, ash_entry_store example_env two_ticks_state 11 1
          (example_record 999 long_statement) = .raised st1 err) ∧
      st1.AshEntryArray = some arr1 ∧ arr1.length = two_ticks_ring.length ∧
      (∀ j, j ≠ 1 → arr1[j]? = two_ticks_ring[j]?) ∧
      arr1[1]? = some e1 ∧ slot_ok example_env e1 ∧
      (∀ newprocentry, search_procentry two_ticks_state
          (example_record 999 long_statement).pid = .ok newprocentry →
        resolved_len example_env newprocentry
          < example_env.pgstat_track_activity_query_size) ∧
      st1.ProcEntryArray = two_ticks_state.ProcEntryArray ∧
      st1.allProcs = two_ticks_state.allProcs ∧
      st1.inserted = two_ticks_state.inserted ∧
      st1.ash_max_entries = two_ticks_state.ash_max_entries :=
  ash_entry_store_is_local example_env two_ticks_state two_ticks_ring two_ticks_slot_1 11 1
    (example_record 999 long_statement) (by decide) (by decide)
    (run_layout example_env (by decide) (by decide) two_ticks _ _
      ⟨fun h => absurd h (by decide), fun h => absurd h (by decide), trivial⟩
      (startup_layout example_env 3 example_procs (by decide) (by decide)) (Or.inl rfl))
    rfl rfl (by decide)

theorem row_of_populated_slot_witness :
    ∃ rows row,
      pg_active_session_history_internal two_ticks_state materialize_call = .ok rows ∧
      rows[1]? = some row ∧ row.length = 23 ∧
      row[0]? = some (some (.TimestampTz 9)) ∧ row[21]? = some (some (.Int64 43)) := by
  obtain ⟨rows, row, h1, h2, h3, h4⟩ :=
    row_of_populated_slot two_ticks_state two_ticks_ring 2 1 two_ticks_slot_1 rfl rfl
      (by decide)
      (fun j e hj hje => by
        have h0 : (two_ticks_ring[0]?).map ashEntry.ash_time = some 7 := rfl
        have h1 : (two_ticks_ring[1]?).map ashEntry.ash_time = some 9 := rfl
        match j, hj, hje with
        | 0, _, hje => rw [hje] at h0; simp at h0; omega
        | 1, _, hje => rw [hje] at h1; simp at h1; omega)
      (fun _ => ⟨zero_ashEntry example_env, rfl, rfl⟩) (by decide) rfl
  refine ⟨rows, row, h1, h2, h3, ?_, ?_⟩
  · rw [h4]; rfl
  · rw [h4]; rfl

/-! ## Ticks -/

/-- The loop of a tick that returns: the slots it writes all carry the capture time of
the tick at the end, and every other slot is as before. -/
theorem store_rows_times (env : Env) (ash_time : Int) (C : Nat) (hC : 1 ≤ C) :
    ∀ (rows : List SpiRow) (st st1 : State) (arr : List ashEntry),
      st.AshEntryArray = some arr → arr.length = C → st.ash_max_entries = C →
      store_rows env st ash_time rows = .returned st1 →
      ∃ arr1, st1.AshEntryArray = some arr1 ∧ arr1.length = C ∧
        (∀ (j : Nat) (e e1 : ashEntry), arr[j]? = some e → arr1[j]? = some e1 →
          e.ash_time = ash_time → e1.ash_time = ash_time) ∧
        (∀ i ∈ tick_slots C st.inserted rows.length,
          ∃ e1, arr1[i]? = some e1 ∧ e1.ash_time = ash_time) ∧
        (∀ j, j ∉ tick_slots C st.inserted rows.length → arr1[j]? = arr[j]?) := by
  intro rows
  induction rows with
  | nil =>
    intro st st1 arr harr hlen hcap h
    simp only [store_rows, Outcome.returned.injEq] at h
    subst h
    refine ⟨arr, harr, hlen, ?_, ?_, fun _ _ => rfl⟩
    · intro j e e1 h1 h2 h3
      rw [h1] at h2
      simp only [Option.some.injEq] at h2
      rw [← h2]; exact h3
    · intro i hi
      simp [tick_slots] at hi
  | cons row rows ih =>
    intro st st1 arr harr hlen hcap h
    simp only [store_rows] at h
    subst hcap
    have hidx : st.inserted % st.ash_max_entries < arr.length := by
      rw [hlen]; exact Nat.mod_lt _ (by omega)
    cases hs : ash_prepare_store env st ash_time (fetch_values row) with
    | undefined => rw [hs] at h; cases h
    | raised st2 err => rw [hs] at h; cases h
    | returned st2 =>
      rw [hs] at h
      obtain ⟨pe, _, hst2⟩ := ash_prepare_store_returned env st st2 arr _ ash_time
        (fetch_values row) harr (by omega) (List.getElem?_eq_getElem hidx) hs
      have harr2 : st2.AshEntryArray = some (arr.set (st.inserted % st.ash_max_entries)
          (store_resolved env (store_activity env arr[st.inserted % st.ash_max_entries]
            (fetch_values row)) pe ash_time)) := by rw [hst2]
      have hcap2 : st2.ash_max_entries = st.ash_max_entries := by rw [hst2]
      have hins2 : st2.inserted = st.inserted % st.ash_max_entries + 1 := by rw [hst2]
      obtain ⟨arr1, harr1, hlen1, hmono, hslots, hframe⟩ :=
        ih st2 st1 _ harr2 (by rw [List.length_set]; exact hlen) hcap2 h
      rw [hins2] at hslots hframe
      refine ⟨arr1, harr1, hlen1, ?_, ?_, ?_⟩
      · intro j e e1 h1 h2 h3
        by_cases hj : st.inserted % st.ash_max_entries = j
        · subst hj
          exact hmono _ _ e1 (List.getElem?_set_self hidx) h2 rfl
        · refine hmono j e e1 ?_ h2 h3
          rw [List.getElem?_set, if_neg hj]
          exact h1
      · intro i hi
        simp only [List.length_cons, tick_slots, List.mem_cons] at hi
        rcases hi with hi | hi
        · subst hi
          have hlt : st.inserted % st.ash_max_entries < arr1.length := by omega
          refine ⟨arr1[st.inserted % st.ash_max_entries], List.getElem?_eq_getElem hlt, ?_⟩
          exact hmono _ _ _ (List.getElem?_set_self hidx) (List.getElem?_eq_getElem hlt) rfl
        · exact hslots i hi
      · intro j hj
        simp only [List.length_cons, tick_slots, List.mem_cons, not_or] at hj
        rw [hframe j hj.2, List.getElem?_set, if_neg (Ne.symm hj.1)]

/-- C18: a tick on an attached ring whose activity query returns `n ≥ 1` tuples and that
returns (every search succeeds) leaves the same capture time, the one read once before
the loop, in every slot it wrote, namely the slots addressed by the cursor during the
`n` appends; every other slot is as before the tick. -/
theorem tick_shares_one_timestamp (env : Env) (st st1 : State) (arr : List ashEntry)
    (ash_time : Int) (tuptable : List SpiRow)
    (harr : st.AshEntryArray = some arr) (hlen : arr.length = st.ash_max_entries)
    (hC : 1 ≤ st.ash_max_entries) (hn : 1 ≤ tuptable.length)
    (htick : pgsentinel_tick env st ash_time tuptable = .returned st1) :
    ∃ arr1, st1.AshEntryArray = some arr1 ∧ arr1.length = arr.length ∧
      (∀ i ∈ tick_slots st.ash_max_entries st.inserted tuptable.length,
        ∃ e1, arr1[i]? = some e1 ∧ e1.ash_time = ash_time) ∧
      (∀ j, j ∉ tick_slots st.ash_max_entries st.inserted tuptable.length →
        arr1[j]? = arr[j]?) := by
  unfold pgsentinel_tick at htick
  rw [if_pos (by omega)] at htick
  obtain ⟨arr1, h1, h2, _, h4, h5⟩ :=
    store_rows_times env ash_time st.ash_max_entries hC tuptable st st1 arr harr hlen rfl htick
  exact ⟨arr1, h1, by omega, h4, h5⟩

theorem tick_shares_one_timestamp_witness :
    ∃ arr1, good_tick_state.AshEntryArray = some arr1 ∧
      arr1.length = (List.replicate 3 (zero_ashEntry example_env)).length ∧
      (∀ i ∈ tick_slots example_state.ash_max_entries example_state.inserted
          [example_row 100 select_1, example_row 200 select_2].length,
        ∃ e1, arr1[i]? = some e1 ∧ e1.ash_time = 7) ∧
      (∀ j, j ∉ tick_slots example_state.ash_max_entries example_state.inserted
          [example_row 100 select_1, example_row 200 select_2].length →
        arr1[j]? = (List.replicate 3 (zero_ashEntry example_env))[j]?) :=
  tick_shares_one_timestamp example_env example_state good_tick_state
    (List.replicate 3 (zero_ashEntry example_env)) 7
    [example_row 100 select_1, example_row 200 select_2] rfl (by decide) (by decide)
    (by decide) rfl

/-- C12 at a failing input: on a full ring of three slots with cursor 3, a tick at time
10 observes backend 200 and then pid 999, which no process slot holds.  The tick raises
the search error.  The Sample of backend 200 is complete in slot 0; but the cursor is 2,
not 1 as before the failing record, and slot 1 is partly written: it carries the worker
id 999 and the top-level text of the failing record together with the query identity 43,
the resolved text `SELECT 2` and the capture time 8 of its previous occupant; the
set-returning function then returns that row with the others. -/
theorem lookup_miss_leaves_torn_slot :
    faulty_tick = .raised faulty_state
      ⟨.ERRCODE_INTERNAL_ERROR, .backend_with_pid_not_found 999⟩ ∧
    busy_state.inserted = 3 ∧ faulty_state.inserted = 2 ∧
    slot_view busy_state 1 = some (200, 43, 8, select_2, select_2) ∧
    slot_view faulty_state 0 = some (200, 43, 10, select_2, select_2) ∧
    slot_view faulty_state 1 = some (999, 43, 8, select_1, select_2) ∧
    (pg_active_session_history_internal faulty_state materialize_call).ok?.map List.length
      = some 3 :=
  ⟨rfl, rfl, rfl, rfl, rfl, rfl, rfl⟩

/-! ## Configuration reload -/

theorem appends_replicate (ash_time : Int) (r : ActivityRecord) (n : Nat) :
    appends (List.replicate n (.sample ash_time r)) = n := by
  induction n with
  | zero => rfl
  | succ n ih => simp only [List.replicate_succ, appends, ih]

theorem nonzero_times_replicate (ash_time : Int) (r : ActivityRecord) (n : Nat)
    (h : ash_time ≠ 0) : nonzero_times (List.replicate n (.sample ash_time r)) = true := by
  induction n with
  | zero => rfl
  | succ n ih => simp [List.replicate_succ, nonzero_times, ih, h]

/-- Appends for a backend that the search finds all return. -/
theorem run_samples_returned (env : Env) (C : Nat) (hC : 1 ≤ C) (ash_time : Int)
    (r : ActivityRecord) (newprocentry : procEntry) :
    ∀ (n m : Nat) (st : State), ring_inv C m st →
      search_procentry st r.pid = .ok newprocentry →
      ∃ st1, run env st (List.replicate n (.sample ash_time r)) = .returned st1 := by
  intro n
  induction n with
  | zero => intro m st _ _; exact ⟨st, rfl⟩
  | succ n ih =>
    intro m st hinv hs
    obtain ⟨hcap, ⟨arr, harr, hlen⟩, _, _, _⟩ := id hinv
    have hidx : st.inserted % st.ash_max_entries < arr.length := by
      rw [hlen, hcap]; exact Nat.mod_lt _ (by omega)
    have heq := ash_prepare_store_eq env st arr _ ash_time r harr (by omega)
      (List.getElem?_eq_getElem hidx)
    rw [hs] at heq
    have hstep : step env st (.sample ash_time r) = _ := heq
    have hinv2 := step_ring_inv env C m st _ (.sample ash_time r) hC hinv hstep
    have hs2 := search_procentry_congr st _ r.pid
      (show ({ st with
        inserted := st.inserted % st.ash_max_entries + 1,
        AshEntryArray := some (arr.set (st.inserted % st.ash_max_entries)
          (store_resolved env (store_activity env arr[st.inserted % st.ash_max_entries] r)
            newprocentry ash_time)) } : State).allProcs = st.allProcs from rfl) rfl
    obtain ⟨st1, hrun⟩ := ih _ _ hinv2 (hs2.trans hs)
    refine ⟨st1, ?_⟩
    rw [List.replicate_succ]
    simp only [run]
    rw [hstep]
    exact hrun

/-- The reading loop runs past the end of the array when every slot carries a capture
time and the bound exceeds the size. -/
theorem history_loop_out_of_bounds (arr : List ashEntry)
    (hnz : ∀ e ∈ arr, e.ash_time ≠ 0) :
    ∀ (fuel i : Nat) (tupstore : List Row), i ≤ arr.length → arr.length < i + fuel →
      history_loop arr fuel i tupstore = .undefined := by
  intro fuel
  induction fuel with
  | zero => intro i tupstore h1 h2; omega
  | succ fuel ih =>
    intro i tupstore h1 h2
    unfold history_loop
    by_cases hi : i < arr.length
    · rw [List.getElem?_eq_getElem hi]
      simp only
      rw [if_pos (hnz _ (List.getElem_mem _))]
      exact ih (i + 1) _ (by omega) (by omega)
    · rw [List.getElem?_eq_none (by omega)]

/-- C17 at a failing input: the ring is sized at startup for 1000 entries and filled by
1000 appends.  The sampler then processes a SIGHUP, the configuration file now giving
`pgsentinel_ash.max_entries = 2000`: the variable is declared `PGC_SIGHUP`, so the
capacity variable becomes 2000 while the array still has 1000 slots.  The next append
addresses slot 1000 and the set-returning function reads slot 1000, both outside the
array. -/
theorem reload_changes_capacity :
    ∃ st arr,
      run example_env (ash_shmem_startup example_env 1000 example_procs) thousand_appends
        = .returned st ∧
      st.AshEntryArray = some arr ∧ arr.length = 1000 ∧ st.ash_max_entries = 1000 ∧
      st.inserted = 1000 ∧
      (sighup st (some 2000)).ash_max_entries = 2000 ∧
      (sighup st (some 2000)).AshEntryArray = some arr ∧
      ash_prepare_store example_env (sighup st (some 2000)) 8 (example_record 100 select_1)
        = .undefined ∧
      pg_active_session_history_internal (sighup st (some 2000)) materialize_call
        = .undefined := by
  have hinv0 := startup_ring_inv example_env 1000 example_procs (by decide)
  obtain ⟨st, hrun⟩ := run_samples_returned example_env 1000 (by decide) 7
    (example_record 100 select_1) (zero_procEntry example_env) 1000 0 _ hinv0 rfl
  have hrun2 : run example_env (ash_shmem_startup example_env 1000 example_procs)
      thousand_appends = .returned st := hrun
  have happ : appends thousand_appends = 1000 := appends_replicate _ _ _
  have hring := run_ring_inv example_env 1000 (by decide) thousand_appends 0 _ st hinv0 hrun2
  have hfill := run_fill_inv example_env 1000 (by decide) thousand_appends 0 _ st hinv0
    (startup_fill_inv example_env 1000 example_procs)
    (nonzero_times_replicate _ _ _ (by decide)) (by rw [happ]) hrun2
  rw [happ] at hring hfill
  obtain ⟨hcap, ⟨arr, harr, hlen⟩, _, _, _⟩ := hring
  obtain ⟨_, hins, hslots⟩ := hfill
  have hins2 : st.inserted = 1000 := hins
  have hmax : (sighup st (some 2000)).ash_max_entries = 2000 := by
    simp only [sighup, ProcessConfigFile, max_entries_variable, INT_MAX]
    rw [if_pos (by decide)]
  refine ⟨st, arr, hrun2, harr, hlen, hcap, hins2, hmax, harr, ?_, ?_⟩
  · unfold ash_prepare_store
    have h1 : (sighup st (some 2000)).AshEntryArray = some arr := harr
    have h2 : (sighup st (some 2000)).inserted = 1000 := hins2
    rw [h1]
    simp only [hmax, h2]
    rw [if_neg (by decide)]
    unfold ash_entry_store
    simp only
    rw [List.getElem?_eq_none (by rw [hlen])]
  · unfold pg_active_session_history_internal
    have h1 : (sighup st (some 2000)).AshEntryArray = some arr := harr
    rw [h1]
    simp only [materialize_call, Bool.not_true, Bool.false_eq_true, if_false, hmax]
    apply history_loop_out_of_bounds arr _ 2000 0 [] (by omega) (by omega)
    intro e he
    obtain ⟨j, hj⟩ := List.mem_iff_getElem?.mp he
    have hjlt := getElem?_some_lt _ _ _ hj
    exact (hslots arr harr j e hj).1 (by omega)

/-! ## The derived identity and the stored text -/

/-- C21: let two statements have trimmed texts longer than `max - 1` bytes that agree on
their first `max - 1` bytes, and let the parser identity be zero.  Run on the same slot,
the parse hook stores for both the same text buffer and the same length `max - 1`, the
first `max - 1` trimmed bytes, but as identities the seed-0 hashes of the two full
trimmed texts: the identity follows the whole statement, not the stored text. -/
theorem identity_hashes_full_text (env : Env) (st : State) (i : Nat) (entry : procEntry)
    (src1 src2 : List Nat) (loc1 len1 loc2 len2 : Int)
    (hentry : st.ProcEntryArray[i]? = some entry)
    (hin1 : statement_inside src1 loc1 len1) (hin2 : statement_inside src2 loc2 len2)
    (hlong1 : env.pgstat_track_activity_query_size - 1
      < (lexer_trim (statement_text src1 loc1 len1)).length)
    (hlong2 : env.pgstat_track_activity_query_size - 1
      < (lexer_trim (statement_text src2 loc2 len2)).length)
    (hagree : (lexer_trim (statement_text src1 loc1 len1)).take
        (env.pgstat_track_activity_query_size - 1)
      = (lexer_trim (statement_text src2 loc2 len2)).take
        (env.pgstat_track_activity_query_size - 1)) :
    ∃ st1 st2 stored1 stored2,
      ash_post_parse_analyze env st (some i) src1 loc1 len1 0 = .returned st1 ∧
      st1.ProcEntryArray[i]? = some stored1 ∧
      ash_post_parse_analyze env st (some i) src2 loc2 len2 0 = .returned st2 ∧
      st2.ProcEntryArray[i]? = some stored2 ∧
      stored1.query = stored2.query ∧ stored1.qlen = stored2.qlen ∧
      stored1.qlen = env.pgstat_track_activity_query_size - 1 ∧
      stored1.query.take stored1.qlen
        = (lexer_trim (statement_text src1 loc1 len1)).take
            (env.pgstat_track_activity_query_size - 1) ∧
      stored1.queryid
        = env.hash_any_extended (lexer_trim (statement_text src1 loc1 len1)) 0 ∧
      stored2.queryid
        = env.hash_any_extended (lexer_trim (statement_text src2 loc2 len2)) 0 := by
  have hilen := getElem?_some_lt _ _ _ hentry
  have hq1 : (recorded env entry (lexer_trim (statement_text src1 loc1 len1)) 0).qlen
      = env.pgstat_track_activity_query_size - 1 := by
    simp only [recorded]; omega
  have hq2 : (recorded env entry (lexer_trim (statement_text src2 loc2 len2)) 0).qlen
      = env.pgstat_track_activity_query_size - 1 := by
    simp only [recorded]; omega
  refine ⟨_, _, _, _, ash_post_parse_analyze_eq env st i entry src1 loc1 len1 0 hentry hin1,
    List.getElem?_set_self hilen,
    ash_post_parse_analyze_eq env st i entry src2 loc2 len2 0 hentry hin2,
    List.getElem?_set_self hilen, ?_, by rw [hq1, hq2], hq1,
    (recorded_query env entry _ 0).1, by simp [recorded], by simp [recorded]⟩
  simp only [recorded]
  rw [hagree, Nat.min_eq_right (by omega), Nat.min_eq_right (by omega)]

set_option maxRecDepth 20000 in
theorem identity_hashes_full_text_witness :
    (∃ st1 st2 stored1 stored2,
      ash_post_parse_analyze compact_env compact_state (some 0) wide_statement_1 (-1) 0 0
        = .returned st1 ∧
      st1.ProcEntryArray[0]? = some stored1 ∧
      ash_post_parse_analyze compact_env compact_state (some 0) wide_statement_2 (-1) 0 0
        = .returned st2 ∧
      st2.ProcEntryArray[0]? = some stored2 ∧
      stored1.query = stored2.query ∧ stored1.qlen = stored2.qlen ∧
      stored1.qlen = compact_env.pgstat_track_activity_query_size - 1 ∧
      stored1.query.take stored1.qlen
        = (lexer_trim (statement_text wide_statement_1 (-1) 0)).take
            (compact_env.pgstat_track_activity_query_size - 1) ∧
      stored1.queryid
        = compact_env.hash_any_extended
            (lexer_trim (statement_text wide_statement_1 (-1) 0)) 0 ∧
      stored2.queryid
        = compact_env.hash_any_extended
            (lexer_trim (statement_text wide_statement_2 (-1) 0)) 0) ∧
    compact_env.hash_any_extended (lexer_trim (statement_text wide_statement_1 (-1) 0)) 0
      = 16146459189016982648 ∧
    compact_env.hash_any_extended (lexer_trim (statement_text wide_statement_2 (-1) 0)) 0
      = 16146459189016982649 :=
  ⟨identity_hashes_full_text compact_env compact_state 0 (zero_procEntry compact_env)
      wide_statement_1 wide_statement_2 (-1) 0 (-1) 0 rfl
      (fun h => absurd h (by decide)) (fun h => absurd h (by decide))
      (by
        have h : (lexer_trim (statement_text wide_statement_1 (-1) 0)).length = 105 := by rfl
        rw [h]
        decide)
      (by
        have h : (lexer_trim (statement_text wide_statement_2 (-1) 0)).length = 105 := by rfl
        rw [h]
        decide)
      (by rfl),
    by rfl, by rfl⟩

end PgSentinel
